import Mathlib

/-!
Verification development for `script.js`.

A shallow embedding of the spreadsheet-to-timeline pipeline of `script.js`
(`getExportUrl`, the row loop of `fetchAndParseXlsx` with its helpers
`getCellValue` and `convertDriveLink`, the sort comparator, the seat
visibility rule, and `updateProfileImage`), followed by theorems about it.

Modelling conventions.

* A JavaScript string is a `List Char` (`Str`).  Every pattern the script
  searches for is ASCII, so code points and UTF-16 code units agree on all
  the operations embedded here.
* A `Date` object is its time value: an integer number of milliseconds since
  the epoch.  An invalid date (time value `NaN`) is `none` where it can occur.
* Host built-ins whose result the language leaves to the implementation
  (`Date.parse` on non-ISO text, `Date.prototype.toString`, the local time
  zone adjustment) are fields of a `Host` record that the embedded functions
  take as a parameter.
* A thrown `TypeError` is `Except.error`.
-/

namespace Script

/-- A JavaScript string. -/
abbrev Str := List Char

/-! ## String built-ins -/

/-- Embedding of `s.startsWith(p)` at position 0: `p` is a prefix of `s`. -/
def startsWith : Str → Str → Bool
  | [], _ => true
  | _ :: _, [] => false
  | a :: p, b :: s => a == b && startsWith p s

/-- Embedding of `s.includes(p)`. -/
def includes (p : Str) : Str → Bool
  | [] => startsWith p []
  | c :: s => startsWith p (c :: s) || includes p s

/-- Embedding of `s.replace(p, r)` for a string pattern `p` and a replacement
`r` without `$`: the first occurrence of `p` is replaced. -/
def replaceFirst (p r : Str) : Str → Str
  | [] => if startsWith p [] then r else []
  | c :: s =>
    if startsWith p (c :: s) then r ++ (c :: s).drop p.length
    else c :: replaceFirst p r s

/-- Line terminators, the characters that `.` of a regular expression without
the `s` flag does not match: LF, CR, U+2028, U+2029. -/
def isLineTerminator (c : Char) : Bool :=
  c.toNat == 0x0A || c.toNat == 0x0D || c.toNat == 0x2028 || c.toNat == 0x2029

/-- Embedding of `s.replace(/<lit>.*/, r)` for a literal `lit`: at the leftmost
occurrence of `lit`, the literal and the maximal run of characters that are not
line terminators after it are replaced by `r`. -/
def replaceLitDotStar (lit r : Str) : Str → Str
  | [] => if startsWith lit [] then r else []
  | c :: s =>
    if startsWith lit (c :: s) then
      r ++ ((c :: s).drop lit.length).dropWhile (fun x => !isLineTerminator x)
    else c :: replaceLitDotStar lit r s

/-! ## `getExportUrl` -/

/-- The constant `GOOGLE_SHEET_URL`, the only argument the script passes to
`getExportUrl`. -/
def GOOGLE_SHEET_URL : Str :=
  "https://docs.google.com/spreadsheets/d/e/2PACX-1vQ1iHfm2TwBzjzR9d72k98CfyKF8lDlAfFDCuv8A_SLeMfIofhtczuliDnFVemB22vnt_lPOhBSU3eD/pubhtml".toList

/-- Embedding of `getExportUrl(url)`. -/
def getExportUrl (url : Str) : Str :=
  if includes "/pubhtml".toList url then
    replaceFirst "/pubhtml".toList "/pub?output=xlsx".toList url
  else if includes "/edit".toList url then
    replaceLitDotStar "/edit".toList "/export?format=xlsx".toList url
  else url

/-! ## Link normalisation -/

/-- The character class `[-\w]` of a regular expression without flags:
ASCII letters, ASCII digits, `_` and `-`. -/
def isIdChar (c : Char) : Bool :=
  (97 ≤ c.toNat && c.toNat ≤ 122) || (65 ≤ c.toNat && c.toNat ≤ 90) ||
  (48 ≤ c.toNat && c.toNat ≤ 57) || c.toNat == 95 || c.toNat == 45

/-- Match of `[-\w]{25,}` anchored at the start of `s`: the maximal run of
identifier characters, when it has at least 25 of them. -/
def idRunAt (s : Str) : Option Str :=
  let run := s.takeWhile isIdChar
  if 25 ≤ run.length then some run else none

/-- Leftmost match of an unanchored regular expression whose anchored matcher
is `f`: the start positions are tried from left to right and the first one at
which `f` matches wins.  No pattern of the script matches the empty string, so
the position at the end of the string is not tried. -/
def leftmost (f : Str → Option Str) : Str → Option Str
  | [] => none
  | c :: s =>
    match f (c :: s) with
    | some run => some run
    | none => leftmost f s

/-- Embedding of `url.match(/[-\w]{25,}/)`, giving group 0 of the leftmost
match. -/
def idMatch (url : Str) : Option Str := leftmost idRunAt url

/-- Match of `\/file\/d\/([-\w]{25,})` anchored at the start of `s`, giving
capture group 1. -/
def fileMatchAt (s : Str) : Option Str :=
  if startsWith "/file/d/".toList s then idRunAt (s.drop 8) else none

/-- Embedding of `url.match(/\/file\/d\/([-\w]{25,})/)`, giving capture group 1
of the leftmost match. -/
def fileMatch (url : Str) : Option Str := leftmost fileMatchAt url

/-- The prefix of a direct-content URL. -/
def lh3 : Str := "https://lh3.googleusercontent.com/d/".toList

/-- The test `url.includes('drive.google.com') || url.includes('docs.google.com')`
made by `convertDriveLink` and by `updateProfileImage`. -/
def isDriveLink (url : Str) : Bool :=
  includes "drive.google.com".toList url || includes "docs.google.com".toList url

/-- Embedding of `convertDriveLink(url)` for a string `url`. -/
def convertDriveLink (url : Str) : Str :=
  if url.isEmpty then url
  else
    match fileMatch url with
    | some id => lh3 ++ id
    | none =>
      if isDriveLink url then
        match idMatch url with
        | some id => lh3 ++ id
        | none => url
      else url

/-- Embedding of `updateProfileImage()` on an avatar element that exists: the
argument is the value of its `src` attribute (`none` when the attribute is
absent) and the result is the value after the call. -/
def updateProfileImage (originalSrc : Option Str) : Option Str :=
  match originalSrc with
  | none => none
  | some src =>
    if !src.isEmpty && isDriveLink src then
      match fileMatch src with
      | some id => some (lh3 ++ id)
      | none => some src
    else some src

/-! ## JavaScript values -/

/-- A JavaScript value, as far as the script inspects one.  `num` is a number
that is a safe integer (its `String(..)` is the plain decimal numeral), `date`
is a `Date` object with a finite time value in milliseconds since the epoch,
and `obj` is any other object, given by the three properties the script reads
from it (`undefined` for a property the object does not have). -/
inductive JSVal where
  | undefined : JSVal
  | null : JSVal
  | bool (b : Bool) : JSVal
  | num (n : Int) : JSVal
  | str (s : Str) : JSVal
  | date (t : Int) : JSVal
  | obj (text result hyperlink : JSVal) : JSVal
  deriving DecidableEq

/-- Host built-ins whose result the language leaves to the implementation. -/
structure Host where
  /-- The time value of `new Date(s)` for a string `s`; `none` is `NaN`, an
  invalid date. -/
  parseDate : Str → Option Int
  /-- The text of `d.toString()` for a `Date` object with time value `t`. -/
  dateToString : Int → Str
  /-- The local time zone adjustment `LocalTZA(t, isUTC)` in milliseconds. -/
  localTZA : Int → Bool → Int

/-- The conversion `ToBoolean(v)`. -/
def truthy : JSVal → Bool
  | .undefined => false
  | .null => false
  | .bool b => b
  | .num n => n != 0
  | .str s => !s.isEmpty
  | .date _ => true
  | .obj _ _ _ => true

/-- The test `typeof v === 'object'`. -/
def isObject : JSVal → Bool
  | .null => true
  | .date _ => true
  | .obj _ _ _ => true
  | _ => false

/-- The decimal digit `d` as a character. -/
def digitChar (d : Nat) : Char := Char.ofNat (48 + d % 10)

/-- The decimal numeral of `n`, most significant digit first; the first
argument bounds the number of digits. -/
def natDigits : Nat → Nat → Str
  | 0, _ => []
  | fuel + 1, n =>
    if n < 10 then [digitChar n] else natDigits fuel (n / 10) ++ [digitChar n]

/-- The text `String(n)` for a natural number. -/
def natToString (n : Nat) : Str := natDigits (n + 1) n

/-- The text `String(n)` for a safe integer. -/
def intToString (n : Int) : Str :=
  if n < 0 then '-' :: natToString n.natAbs else natToString n.natAbs

/-- The text `String(v)`, which is also `v.toString()` for every `v` other than
`undefined` and `null`. -/
def toStr (host : Host) : JSVal → Str
  | .undefined => "undefined".toList
  | .null => "null".toList
  | .bool b => if b then "true".toList else "false".toList
  | .num n => intToString n
  | .str s => s
  | .date t => host.dateToString t
  | .obj _ _ _ => "[object Object]".toList

/-- The three property names the script reads from a cell value. -/
inductive PropName where
  | text
  | result
  | hyperlink
  deriving DecidableEq

/-- Property read `v.p`: a `TypeError` on `undefined` and `null`, the stored
property on an object, and `undefined` on every other value. -/
def getProp (v : JSVal) (p : PropName) : Except Str JSVal :=
  match v with
  | .undefined => .error "TypeError: Cannot read properties of undefined".toList
  | .null => .error "TypeError: Cannot read properties of null".toList
  | .obj text result hyperlink =>
    match p with
    | .text => .ok text
    | .result => .ok result
    | .hyperlink => .ok hyperlink
  | _ => .ok .undefined

/-- White space and line terminators, the characters that
`String.prototype.trim` strips. -/
def isWhiteSpace (c : Char) : Bool :=
  c.toNat == 0x09 || c.toNat == 0x0A || c.toNat == 0x0B || c.toNat == 0x0C ||
  c.toNat == 0x0D || c.toNat == 0x20 || c.toNat == 0xA0 || c.toNat == 0x1680 ||
  (0x2000 ≤ c.toNat && c.toNat ≤ 0x200A) || c.toNat == 0x2028 || c.toNat == 0x2029 ||
  c.toNat == 0x202F || c.toNat == 0x205F || c.toNat == 0x3000 || c.toNat == 0xFEFF

/-- Embedding of `s.trim()`. -/
def trim (s : Str) : Str :=
  ((s.dropWhile isWhiteSpace).reverse.dropWhile isWhiteSpace).reverse

/-- Method call `v.trim()`: defined on strings only, a `TypeError` elsewhere. -/
def callTrim : JSVal → Except Str Str
  | .str s => .ok (trim s)
  | _ => .error "TypeError: trim is not a function".toList

/-- Embedding of `String(n).padStart(2, '0')` on the text of `String(n)`. -/
def padStart2 (s : Str) : Str :=
  List.replicate (2 - s.length) '0' ++ s

/-- The two-digit, zero-padded decimal text of `k`, for `0 ≤ k ≤ 99`. -/
def twoDigits (k : Int) : Str := [digitChar (k.toNat / 10), digitChar k.toNat]

/-- The four-digit decimal text of `k`, for `1000 ≤ k ≤ 9999`. -/
def fourDigits (k : Int) : Str :=
  [digitChar (k.toNat / 1000), digitChar (k.toNat / 100), digitChar (k.toNat / 10),
    digitChar k.toNat]

/-! ## Time values -/

/-- Milliseconds per day. -/
def msPerDay : Int := 86400000

/-- The abstract operation `Day(t)`: the day number of a time value. -/
def Day (t : Int) : Int := t / msPerDay

/-- The abstract operation `TimeWithinDay(t)`. -/
def TimeWithinDay (t : Int) : Int := t % msPerDay

/-- The abstract operation `DayFromYear(y)`: the day number of the first day of year `y`. -/
def DayFromYear (y : Int) : Int :=
  365 * (y - 1970) + (y - 1969) / 4 - (y - 1901) / 100 + (y - 1601) / 400

/-- The year that holds day number `d`, counted in 400-year, 100-year, 4-year
and 1-year cycles from 1 January 1601. -/
def yearFromDay (d : Int) : Int :=
  let d0 := d + 134774
  let n400 := d0 / 146097
  let r400 := d0 % 146097
  let n100 := if r400 / 36524 < 4 then r400 / 36524 else 3
  let r100 := r400 - n100 * 36524
  let n4 := r100 / 1461
  let r4 := r100 % 1461
  let n1 := if r4 / 365 < 4 then r4 / 365 else 3
  1601 + 400 * n400 + 100 * n100 + 4 * n4 + n1

/-- The abstract operation `YearFromTime(t)`. -/
def YearFromTime (t : Int) : Int := yearFromDay (Day t)

/-- One for a leap year, zero for a common year (`DaysInYear(y) - 365`). -/
def leapDays (y : Int) : Int :=
  if y % 4 ≠ 0 then 0 else if y % 100 ≠ 0 then 1 else if y % 400 ≠ 0 then 0 else 1

/-- The abstract operation `InLeapYear(t)`. -/
def InLeapYear (t : Int) : Int := leapDays (YearFromTime t)

/-- The abstract operation `DayWithinYear(t)`. -/
def DayWithinYear (t : Int) : Int := Day t - DayFromYear (YearFromTime t)

/-- The day within the year on which month `m` (0 to 11) starts, given the
leap-day count `l` of the year. -/
def monthStart (m l : Int) : Int :=
  if m ≤ 0 then 0 else if m = 1 then 31 else if m = 2 then 59 + l
  else if m = 3 then 90 + l else if m = 4 then 120 + l else if m = 5 then 151 + l
  else if m = 6 then 181 + l else if m = 7 then 212 + l else if m = 8 then 243 + l
  else if m = 9 then 273 + l else if m = 10 then 304 + l else 334 + l

/-- The month (0 for January to 11 for December) that holds day `d` within a
year with leap-day count `l`. -/
def monthOfDay (d l : Int) : Int :=
  if d < 31 then 0 else if d < 59 + l then 1 else if d < 90 + l then 2
  else if d < 120 + l then 3 else if d < 151 + l then 4 else if d < 181 + l then 5
  else if d < 212 + l then 6 else if d < 243 + l then 7 else if d < 273 + l then 8
  else if d < 304 + l then 9 else if d < 334 + l then 10 else 11

/-- The abstract operation `MonthFromTime(t)`, 0 for January to 11 for December. -/
def MonthFromTime (t : Int) : Int := monthOfDay (DayWithinYear t) (InLeapYear t)

/-- The abstract operation `DateFromTime(t)`, the day of the month, 1 to 31. -/
def DateFromTime (t : Int) : Int :=
  DayWithinYear t - monthStart (MonthFromTime t) (InLeapYear t) + 1

/-- The abstract operation `HourFromTime(t)`. -/
def HourFromTime (t : Int) : Int := (t / 3600000) % 24

/-- The abstract operation `MinFromTime(t)`. -/
def MinFromTime (t : Int) : Int := (t / 60000) % 60

/-- The abstract operation `MakeDay(year, month, date)`. -/
def MakeDay (year month date : Int) : Int :=
  let ym := year + month / 12
  let mn := month % 12
  DayFromYear ym + monthStart mn (leapDays ym) + date - 1

/-- The abstract operation `MakeDate(day, time)`. -/
def MakeDate (day time : Int) : Int := day * msPerDay + time

/-- The abstract operation `LocalTime(t)`. -/
def LocalTime (host : Host) (t : Int) : Int := t + host.localTZA t true

/-- The abstract operation `UTC(t)`: the time value of a local time. -/
def UTC (host : Host) (t : Int) : Int := t - host.localTZA t false

/-! ## The row loop of `fetchAndParseXlsx` -/

/-- A worksheet row: the cell values from column 1 on. -/
abbrev Row := List JSVal

/-- Embedding of `row.getCell(idx).value`: the value of the cell in column `idx`
(counted from 1), `null` for a cell that holds nothing. -/
def cellValue (row : Row) (idx : Nat) : JSVal := row.getD (idx - 1) JSVal.null

/-- One timeline record, as pushed by the row loop. -/
structure Event where
  date : Str
  artist : JSVal
  eventName : JSVal
  location : JSVal
  seat : JSVal
  imageUrl : Str
  deriving DecidableEq

/-- Embedding of `getCellValue(idx)`. -/
def getCellValue (host : Host) (row : Row) (idx : Nat) : Except Str JSVal :=
  let val := cellValue row idx
  let plain : JSVal := if truthy val then JSVal.str (toStr host val) else JSVal.str []
  if truthy val && isObject val then do
    let text ← getProp val PropName.text
    if truthy text then pure text
    else do
      let result ← getProp val PropName.result
      if truthy result then pure result
      else do
        let hyperlink ← getProp val PropName.hyperlink
        if truthy hyperlink then pure (if truthy text then text else hyperlink)
        else pure plain
  else pure plain

/-- The date text built from a `Date` cell with time value `t`, from its UTC
calendar fields. -/
def formatDate (t : Int) : Str :=
  let y := intToString (YearFromTime t)
  let m := padStart2 (intToString (MonthFromTime t + 1))
  let d := padStart2 (intToString (DateFromTime t))
  let hh := HourFromTime t
  let mm := MinFromTime t
  if hh ≠ 0 ∨ mm ≠ 0 then
    y ++ '.' :: m ++ '.' :: d ++ ' ' :: padStart2 (intToString hh) ++
      ':' :: padStart2 (intToString mm)
  else y ++ '.' :: m ++ '.' :: d

/-- The "Date handling" step of the row loop: the date text `dateStr` of a row. -/
def resolveDate (host : Host) (row : Row) : Except Str Str :=
  let dateVal := cellValue row 1
  let plain : Str := if truthy dateVal then toStr host dateVal else []
  match dateVal with
  | JSVal.date t => pure (formatDate t)
  | _ =>
    if isObject dateVal then do
      let result ← getProp dateVal PropName.result
      if truthy result then pure (toStr host result) else pure plain
    else pure plain

/-- The "Basic validation" test `!dateStr || dateStr.trim() === ''`. -/
def isBlank (dateStr : Str) : Bool := dateStr.isEmpty || (trim dateStr).isEmpty

/-- ASCII upper case of a character; every other character is left alone. -/
def asciiUpper (c : Char) : Char :=
  if 97 ≤ c.toNat ∧ c.toNat ≤ 122 then Char.ofNat (c.toNat - 32) else c

/-- Match of a literal ASCII pattern at the start of `s` under the `i` flag. -/
def startsWithCI : Str → Str → Bool
  | [], _ => true
  | _ :: _, [] => false
  | a :: p, b :: s => asciiUpper a == asciiUpper b && startsWithCI p s

/-- The test `imgUrl.match(/^https?:\/\//i)`. -/
def isWebUrl (s : Str) : Bool :=
  startsWithCI "http://".toList s || startsWithCI "https://".toList s

/-- The condition of the specification that a text starts with `http://` or
`https://` in any letter case, written with the library functions `List.take`
and `Char.toLower` and not with the matcher of the embedding. -/
def startsWithHttpIgnoringCase (t : Str) : Bool :=
  (t.take 7).map Char.toLower == "http://".toList ||
    (t.take 8).map Char.toLower == "https://".toList

/-- The "Smart Path Handling" step on the trimmed image cell text. -/
def resolveImage (rawImg : Str) : Str :=
  if 0 < rawImg.length then
    if isWebUrl rawImg then convertDriveLink rawImg
    else if !includes "/".toList rawImg then "images/".toList ++ rawImg
    else rawImg
  else rawImg

/-- The body of the `eachRow` callback for a row that is not the header:
`none` when the row is skipped, the Event that is pushed otherwise. -/
def processRow (host : Host) (row : Row) : Except Str (Option Event) := do
  let dateStr ← resolveDate host row
  if isBlank dateStr then pure none
  else do
    let cell6 ← getCellValue host row 6
    let rawImg ← callTrim cell6
    let imgUrl := resolveImage rawImg
    let artist ← getCellValue host row 2
    let eventName ← getCellValue host row 3
    let location ← getCellValue host row 4
    let seat ← getCellValue host row 5
    pure (some
      { date := dateStr, artist := artist, eventName := eventName,
        location := location, seat := seat, imageUrl := imgUrl })

/-- A worksheet as `eachRow` walks it: the rows in order, each with its row
number. -/
abbrev Worksheet := List (Nat × Row)

/-- Embedding of `worksheet.eachRow(...)`: the Events pushed onto `events`, or
the error thrown by the first row that throws. -/
def rowLoop (host : Host) : Worksheet → List Event → Except Str (List Event)
  | [], events => pure events
  | (rowNumber, row) :: rest, events =>
    if rowNumber = 1 then rowLoop host rest events
    else
      match processRow host row with
      | Except.error e => Except.error e
      | Except.ok none => rowLoop host rest events
      | Except.ok (some ev) => rowLoop host rest (events ++ [ev])

/-- Whether a row is a data row whose date text resolves and is not blank. -/
def dateKept (host : Host) (r : Nat × Row) : Bool :=
  r.1 != 1 &&
    (match resolveDate host r.2 with
      | Except.ok d => !isBlank d
      | Except.error _ => false)

/-- The number of data rows whose date text is not blank. -/
def keptCount (host : Host) (ws : Worksheet) : Nat := (ws.filter (dateKept host)).length

/-! ## Sorting -/

/-- Embedding of `s.replace(/\./g, '-').replace(/\//g, '-')`. -/
def normalizeDate (s : Str) : Str :=
  (s.map (fun c => if c = '.' then '-' else c)).map (fun c => if c = '/' then '-' else c)

/-- The time value of `new Date(e.date.replace(..).replace(..))`; `none` is an
invalid date. -/
def eventTime (host : Host) (e : Event) : Option Int :=
  host.parseDate (normalizeDate e.date)

/-- Whether a row is a data row whose date text is not blank and parses as a
date. -/
def dateParses (host : Host) (r : Nat × Row) : Bool :=
  r.1 != 1 &&
    (match resolveDate host r.2 with
      | Except.ok d => !isBlank d && (host.parseDate (normalizeDate d)).isSome
      | Except.error _ => false)

/-- The number of data rows whose date text is not blank and parses as a date. -/
def parseableCount (host : Host) (ws : Worksheet) : Nat := (ws.filter (dateParses host)).length

/-- Embedding of the comparator passed to `events.sort`. -/
def compareEvents (host : Host) (a b : Event) : Int :=
  match eventTime host a with
  | none => 1
  | some da =>
    match eventTime host b with
    | none => -1
    | some db => db - da

/-- Insertion of `x` in front of the first element that `x` does not sort
after. -/
def insertEvent (cmp : Event → Event → Int) (x : Event) : List Event → List Event
  | [] => [x]
  | y :: ys => if cmp x y ≤ 0 then x :: y :: ys else y :: insertEvent cmp x ys

/-- Model of `Array.prototype.sort(cmp)` as a stable insertion sort.  For a
consistent comparator the sorted order of a stable sort is unique, so every
conforming engine returns this list. -/
def sortWith (cmp : Event → Event → Int) : List Event → List Event
  | [] => []
  | x :: xs => insertEvent cmp x (sortWith cmp xs)

/-- The sort step of `fetchAndParseXlsx`. -/
def sortEvents (host : Host) (events : List Event) : List Event :=
  sortWith (compareEvents host) events

/-- The Event list of `fetchAndParseXlsx`: row loop, then sort. -/
def buildEvents (host : Host) (ws : Worksheet) : Except Str (List Event) := do
  let events ← rowLoop host ws []
  pure (sortEvents host events)

/-! ## Rendering -/

/-- The time value of `revealDate` after
`revealDate.setDate(revealDate.getDate() + 7)`: `setDate` rebuilds the local
time from the local year and month and the new day of the month.  The range
limit of time values (8.64e15 ms either side of the epoch) is not modelled. -/
def revealTime (host : Host) (t : Int) : Int :=
  let lt := LocalTime host t
  let dt := DateFromTime lt + 7
  UTC host (MakeDate (MakeDay (YearFromTime lt) (MonthFromTime lt) dt) (TimeWithinDay lt))

/-- The "Seat Visibility Logic": whether the seat paragraph is emitted for an
Event at the current time `now`.  An invalid `revealDate` compares false. -/
def seatShown (host : Host) (e : Event) (now : Int) : Bool :=
  let revealDate := (eventTime host e).map (revealTime host)
  if truthy e.seat && e.seat != JSVal.str "undefined".toList then
    match revealDate with
    | none => false
    | some r => decide (r ≤ now)
  else false

/-- One rendered timeline item: the fields that are always emitted and the
three conditional ones. -/
structure TimelineItem where
  date : Str
  artist : JSVal
  eventName : JSVal
  location : Option JSVal
  seat : Option JSVal
  image : Option Str

/-- The body of `events.forEach(...)` for one Event. -/
def renderItem (host : Host) (now : Int) (e : Event) : TimelineItem :=
  { date := e.date
    artist := e.artist
    eventName := e.eventName
    location :=
      if truthy e.location && e.location != JSVal.str "undefined".toList then some e.location
      else none
    seat := if seatShown host e now then some e.seat else none
    image :=
      if !e.imageUrl.isEmpty && e.imageUrl != "images/".toList then some e.imageUrl else none }

/-- The timeline items rendered by `fetchAndParseXlsx`, in order. -/
def renderTimeline (host : Host) (now : Int) (ws : Worksheet) : Except Str (List TimelineItem) := do
  let events ← buildEvents host ws
  pure (events.map (renderItem host now))

/-! ## A reference host -/

/-- The value of a decimal digit character, `none` for any other character. -/
def digitVal (c : Char) : Option Nat :=
  if 48 ≤ c.toNat ∧ c.toNat ≤ 57 then some (c.toNat - 48) else none

/-- The number written by a non-empty string of decimal digits. -/
def parseNat (s : Str) : Option Nat :=
  if s.isEmpty then none
  else s.foldl (fun acc c => acc.bind (fun n => (digitVal c).map (fun d => 10 * n + d))) (some 0)

/-- Date text `YYYY-MM-DD`, read as midnight UTC of that day. -/
def parseYmd (s : Str) : Option Int :=
  if s.length = 10 ∧ s.getD 4 ' ' = '-' ∧ s.getD 7 ' ' = '-' then
    match parseNat (s.take 4), parseNat ((s.drop 5).take 2), parseNat ((s.drop 8).take 2) with
    | some y, some m, some d =>
      if 1 ≤ m ∧ m ≤ 12 ∧ 1 ≤ d ∧ d ≤ 31 then
        some (MakeDate (MakeDay (y : Int) ((m : Int) - 1) (d : Int)) 0)
      else none
    | _, _, _ => none
  else none

/-- Time text `HH:MM`, in milliseconds. -/
def parseHm (s : Str) : Option Int :=
  if s.length = 5 ∧ s.getD 2 ' ' = ':' then
    match parseNat (s.take 2), parseNat (s.drop 3) with
    | some h, some m => if h ≤ 23 ∧ m ≤ 59 then some ((h : Int) * 3600000 + (m : Int) * 60000) else none
    | _, _ => none
  else none

/-- A `Date.parse` that reads the two shapes the script itself writes,
`YYYY-MM-DD` and `YYYY-MM-DD HH:MM`, and nothing else. -/
def refParseDate (s : Str) : Option Int :=
  if s.length = 10 then parseYmd s
  else if s.length = 16 ∧ s.getD 10 'x' = ' ' then
    match parseYmd (s.take 10), parseHm (s.drop 11) with
    | some d, some t => some (d + t)
    | _, _ => none
  else none

/-- A host in the UTC time zone, used to evaluate the embedding on concrete
inputs.  Text without a digit, such as `TBA`, is an invalid date on it, as on
every engine. -/
def refHost : Host :=
  { parseDate := refParseDate
    dateToString := fun t => formatDate t
    localTZA := fun _ _ => 0 }

/-- The zone adjustment of a host on New York time around the clock change of
10 March 2024: five hours behind UTC before 07:00 UTC of that day (03:00 on the
local clock) and four hours behind from then on. -/
def nyTZA (t : Int) (isUTC : Bool) : Int :=
  if isUTC then (if t < 1710054000000 then -18000000 else -14400000)
  else (if t < 1710039600000 then -18000000 else -14400000)

/-- A host on New York time: a date-only text is read as midnight UTC, and a
text with a time as a time on the local clock. -/
def nyHost : Host :=
  { parseDate := fun s =>
      if s.length = 10 then parseYmd s
      else (refParseDate s).map (fun l => l - nyTZA l false)
    dateToString := fun t => formatDate t
    localTZA := nyTZA }

/-! ## Sample rows -/

/-- A header row. -/
def headerRow : Row :=
  [JSVal.str "Date".toList, JSVal.str "Artist".toList, JSVal.str "Event".toList,
    JSVal.str "Location".toList, JSVal.str "Seat".toList, JSVal.str "Image".toList]

/-- The example row of the specification. -/
def exampleRow : Row :=
  [JSVal.str "2024.03.01".toList, JSVal.str "Artist X".toList, JSVal.str "Concert".toList,
    JSVal.str "Hall A".toList, JSVal.str "B12".toList, JSVal.str "pic.png".toList]

/-- The Event that the specification gives for the example row. -/
def exampleEvent : Event :=
  { date := "2024.03.01".toList
    artist := JSVal.str "Artist X".toList
    eventName := JSVal.str "Concert".toList
    location := JSVal.str "Hall A".toList
    seat := JSVal.str "B12".toList
    imageUrl := "images/pic.png".toList }

/-- A data row whose date cell holds nothing and whose other cells are filled. -/
def absentDateRow : Row :=
  [JSVal.null, JSVal.str "Artist Y".toList, JSVal.str "Showcase".toList,
    JSVal.str "Hall B".toList, JSVal.str "C3".toList, JSVal.str "y.png".toList]

/-- A data row whose date cell is blank text. -/
def blankDateRow : Row :=
  [JSVal.str "  ".toList, JSVal.str "Artist Y".toList, JSVal.str "Showcase".toList,
    JSVal.str "Hall B".toList, JSVal.str "C3".toList, JSVal.str "y.png".toList]

/-- A data row whose date cell is the text `TBA`. -/
def tbaRow : Row :=
  [JSVal.str "TBA".toList, JSVal.str "Artist Z".toList, JSVal.str "Fan meeting".toList,
    JSVal.str "Hall C".toList, JSVal.str "A1".toList, JSVal.str "z.png".toList]

/-- The Event pushed for `tbaRow`. -/
def tbaEvent : Event :=
  { date := "TBA".toList
    artist := JSVal.str "Artist Z".toList
    eventName := JSVal.str "Fan meeting".toList
    location := JSVal.str "Hall C".toList
    seat := JSVal.str "A1".toList
    imageUrl := "images/z.png".toList }

/-- A second Event whose date text does not parse. -/
def tbdEvent : Event :=
  { date := "TBD".toList
    artist := JSVal.str "Artist W".toList
    eventName := JSVal.str "Festival".toList
    location := JSVal.str "Hall D".toList
    seat := JSVal.str "D4".toList
    imageUrl := "".toList }

/-- An Event with the given date text and the other fields of the example. -/
def eventOn (date : Str) : Event := { exampleEvent with date := date }

/-! ## Facts about the string built-ins -/

theorem startsWith_iff (p s : Str) : startsWith p s = true ↔ ∃ t, s = p ++ t := by
  induction p generalizing s with
  | nil => simp [startsWith]
  | cons a p ih =>
    cases s with
    | nil => simp [startsWith]
    | cons b s =>
      simp only [startsWith, Bool.and_eq_true, beq_iff_eq, ih, List.cons_append, List.cons.injEq]
      constructor
      · rintro ⟨rfl, t, rfl⟩
        exact ⟨t, rfl, rfl⟩
      · rintro ⟨t, rfl, rfl⟩
        exact ⟨rfl, t, rfl⟩

theorem includes_iff (p s : Str) : includes p s = true ↔ ∃ a b, s = a ++ p ++ b := by
  induction s with
  | nil =>
    simp only [includes, startsWith_iff]
    constructor
    · rintro ⟨t, h⟩
      exact ⟨[], t, by simpa using h⟩
    · rintro ⟨a, b, h⟩
      cases a with
      | nil => exact ⟨b, by simpa using h⟩
      | cons x a => simp at h
  | cons c s ih =>
    simp only [includes, Bool.or_eq_true, startsWith_iff, ih]
    constructor
    · rintro (⟨t, h⟩ | ⟨a, b, h⟩)
      · exact ⟨[], t, by simpa using h⟩
      · exact ⟨c :: a, b, by simp [h]⟩
    · rintro ⟨a, b, h⟩
      cases a with
      | nil => exact Or.inl ⟨b, by simpa using h⟩
      | cons x a =>
        simp only [List.cons_append, List.cons.injEq] at h
        exact Or.inr ⟨a, b, by simpa using h.2⟩

theorem replaceFirst_spec (p r s : Str) (h : includes p s = true) :
    ∃ a b, s = a ++ p ++ b ∧ (∀ a' b', s = a' ++ p ++ b' → a.length ≤ a'.length) ∧
      replaceFirst p r s = a ++ r ++ b := by
  induction s with
  | nil =>
    have hp : startsWith p [] = true := by simpa [includes] using h
    obtain ⟨t, ht⟩ := (startsWith_iff p []).1 hp
    have hp0 : p = [] := by
      cases p with
      | nil => rfl
      | cons x p => simp at ht
    subst hp0
    exact ⟨[], [], by simp, by simp, by simp [replaceFirst, startsWith]⟩
  | cons c s ih =>
    by_cases hs : startsWith p (c :: s) = true
    · obtain ⟨t, ht⟩ := (startsWith_iff p (c :: s)).1 hs
      refine ⟨[], t, by simpa using ht, by simp, ?_⟩
      simp only [replaceFirst, hs, if_true, List.nil_append]
      rw [ht, List.drop_left]
    · have hi : includes p s = true := by
        simp only [includes, Bool.or_eq_true] at h
        exact h.resolve_left hs
      obtain ⟨a, b, hab, hmin, hrep⟩ := ih hi
      refine ⟨c :: a, b, by simp [hab], ?_, ?_⟩
      · intro a' b' h'
        cases a' with
        | nil =>
          exact absurd ((startsWith_iff p (c :: s)).2 ⟨b', by simpa using h'⟩) hs
        | cons x a' =>
          simp only [List.cons_append, List.cons.injEq] at h'
          have := hmin a' b' (by simpa using h'.2)
          simpa using this
      · simp only [replaceFirst, hs, Bool.false_eq_true, if_false, hrep, List.cons_append]

theorem replaceLitDotStar_spec (lit r s : Str) (h : includes lit s = true) :
    ∃ a b, s = a ++ lit ++ b ∧ (∀ a' b', s = a' ++ lit ++ b' → a.length ≤ a'.length) ∧
      replaceLitDotStar lit r s = a ++ r ++ b.dropWhile (fun x => !isLineTerminator x) := by
  induction s with
  | nil =>
    have hp : startsWith lit [] = true := by simpa [includes] using h
    obtain ⟨t, ht⟩ := (startsWith_iff lit []).1 hp
    have hp0 : lit = [] := by
      cases lit with
      | nil => rfl
      | cons x p => simp at ht
    subst hp0
    exact ⟨[], [], by simp, by simp, by simp [replaceLitDotStar, startsWith]⟩
  | cons c s ih =>
    by_cases hs : startsWith lit (c :: s) = true
    · obtain ⟨t, ht⟩ := (startsWith_iff lit (c :: s)).1 hs
      refine ⟨[], t, by simpa using ht, by simp, ?_⟩
      simp only [replaceLitDotStar, hs, if_true, List.nil_append]
      rw [ht, List.drop_left]
    · have hi : includes lit s = true := by
        simp only [includes, Bool.or_eq_true] at h
        exact h.resolve_left hs
      obtain ⟨a, b, hab, hmin, hrep⟩ := ih hi
      refine ⟨c :: a, b, by simp [hab], ?_, ?_⟩
      · intro a' b' h'
        cases a' with
        | nil =>
          exact absurd ((startsWith_iff lit (c :: s)).2 ⟨b', by simpa using h'⟩) hs
        | cons x a' =>
          simp only [List.cons_append, List.cons.injEq] at h'
          have := hmin a' b' (by simpa using h'.2)
          simpa using this
      · simp only [replaceLitDotStar, hs, Bool.false_eq_true, if_false, hrep, List.cons_append]

/-! ## Facts about the pattern matchers -/

theorem takeWhile_of_split (p : Char → Bool) (id b : Str) (hid : ∀ c ∈ id, p c = true)
    (hb : ∀ c, b.head? = some c → p c = false) : (id ++ b).takeWhile p = id := by
  induction id with
  | nil =>
    cases b with
    | nil => rfl
    | cons c b => simp [List.takeWhile, hb c (by simp)]
  | cons x id ih =>
    have hx : p x = true := hid x (by simp)
    have ih2 := ih (fun c hc => hid c (by simp [hc]))
    simp [List.takeWhile_cons, hx, ih2]

theorem idRunAt_of_split (id b : Str) (hlen : 25 ≤ id.length)
    (hid : ∀ c ∈ id, isIdChar c = true) (hb : ∀ c, b.head? = some c → isIdChar c = false) :
    idRunAt (id ++ b) = some id := by
  simp [idRunAt, takeWhile_of_split isIdChar id b hid hb, hlen]

theorem leftmost_skip (f : Str → Option Str) (a t : Str)
    (h : ∀ k, k < a.length → f ((a ++ t).drop k) = none) :
    leftmost f (a ++ t) = leftmost f t := by
  induction a with
  | nil => rfl
  | cons x a ih =>
    have h0 : f (x :: (a ++ t)) = none := by simpa using h 0 (by simp)
    have ih2 := ih (fun k hk => by simpa using h (k + 1) (by simpa using hk))
    show leftmost f (x :: (a ++ t)) = leftmost f t
    rw [leftmost, h0]
    exact ih2

theorem leftmost_of_head (f : Str → Option Str) (t r : Str) (hf : f t = some r)
    (hne : t ≠ []) : leftmost f t = some r := by
  cases t with
  | nil => exact absurd rfl hne
  | cons c t => simp [leftmost, hf]

theorem fileMatch_of_split (u a id b : Str) (hu : u = a ++ "/file/d/".toList ++ id ++ b)
    (hlen : 25 ≤ id.length) (hid : ∀ c ∈ id, isIdChar c = true)
    (hb : ∀ c, b.head? = some c → isIdChar c = false)
    (hfirst : ∀ k, k < a.length → fileMatchAt (u.drop k) = none) :
    fileMatch u = some id := by
  have hu2 : u = a ++ ("/file/d/".toList ++ (id ++ b)) := by simp [hu]
  have hat : fileMatchAt ("/file/d/".toList ++ (id ++ b)) = some id := by
    have hs : startsWith "/file/d/".toList ("/file/d/".toList ++ (id ++ b)) = true :=
      (startsWith_iff _ _).2 ⟨_, rfl⟩
    have hd : ("/file/d/".toList ++ (id ++ b)).drop 8 = id ++ b := by
      exact List.drop_left "/file/d/".toList (id ++ b)
    simp only [fileMatchAt, hs, if_true, hd]
    exact idRunAt_of_split id b hlen hid hb
  unfold fileMatch
  rw [hu2, leftmost_skip fileMatchAt a _ (fun k hk => by rw [← hu2]; exact hfirst k hk)]
  exact leftmost_of_head _ _ _ hat (by simp)

theorem idMatch_of_split (u a id b : Str) (hu : u = a ++ id ++ b)
    (hlen : 25 ≤ id.length) (hid : ∀ c ∈ id, isIdChar c = true)
    (hb : ∀ c, b.head? = some c → isIdChar c = false)
    (hfirst : ∀ k, k < a.length → idRunAt (u.drop k) = none) :
    idMatch u = some id := by
  have hu2 : u = a ++ (id ++ b) := by simp [hu]
  unfold idMatch
  rw [hu2, leftmost_skip idRunAt a _ (fun k hk => by rw [← hu2]; exact hfirst k hk)]
  refine leftmost_of_head _ _ _ (idRunAt_of_split id b hlen hid hb) ?_
  intro h0
  have : id = [] := (List.append_eq_nil.1 h0).1
  simp [this] at hlen

theorem leftmost_some (f : Str → Option Str) (u r : Str) (h : leftmost f u = some r) :
    ∃ a t, u = a ++ t ∧ f t = some r := by
  induction u with
  | nil => simp [leftmost] at h
  | cons c u ih =>
    cases hf : f (c :: u) with
    | some x =>
      simp only [leftmost, hf] at h
      exact ⟨[], c :: u, rfl, by rw [hf, h]⟩
    | none =>
      simp only [leftmost, hf] at h
      obtain ⟨a, t, hu, ht⟩ := ih h
      exact ⟨c :: a, t, by simp [hu], ht⟩

theorem leftmost_none (f : Str → Option Str) (u : Str) (h : leftmost f u = none) :
    ∀ a t, u = a ++ t → t ≠ [] → f t = none := by
  induction u with
  | nil =>
    intro a t hu hne
    have := List.append_eq_nil.1 hu.symm
    exact absurd this.2 hne
  | cons c u ih =>
    intro a t hu hne
    cases hf : f (c :: u) with
    | some x => simp [leftmost, hf] at h
    | none =>
      simp only [leftmost, hf] at h
      cases a with
      | nil =>
        rw [List.nil_append] at hu
        rw [← hu]
        exact hf
      | cons x a =>
        simp only [List.cons_append, List.cons.injEq] at hu
        exact ih h a t hu.2 hne

theorem fileMatch_eq_none_iff (u : Str) :
    fileMatch u = none ↔
      ∀ a id b, u = a ++ "/file/d/".toList ++ id ++ b → (∀ c ∈ id, isIdChar c = true) →
        (∀ c, b.head? = some c → isIdChar c = false) → id.length < 25 := by
  constructor
  · intro h a id b hu hid hb
    have hu2 : u = a ++ ("/file/d/".toList ++ (id ++ b)) := by simp [hu]
    have hn := leftmost_none fileMatchAt u h a _ hu2 (by simp)
    have hs : startsWith "/file/d/".toList ("/file/d/".toList ++ (id ++ b)) = true :=
      (startsWith_iff _ _).2 ⟨_, rfl⟩
    have hd : ("/file/d/".toList ++ (id ++ b)).drop 8 = id ++ b :=
      List.drop_left "/file/d/".toList (id ++ b)
    simp only [fileMatchAt, hs, if_true, hd, idRunAt, takeWhile_of_split isIdChar id b hid hb]
      at hn
    by_contra hlen
    have : 25 ≤ id.length := by omega
    simp [this] at hn
  · intro h
    cases hm : fileMatch u with
    | none => rfl
    | some r =>
      exfalso
      obtain ⟨a, t, hu, ht⟩ := leftmost_some fileMatchAt u r hm
      unfold fileMatchAt at ht
      by_cases hs : startsWith "/file/d/".toList t = true
      · rw [if_pos hs] at ht
        obtain ⟨rest, hrest⟩ := (startsWith_iff _ _).1 hs
        have hd : t.drop 8 = rest := by
          rw [hrest]
          exact List.drop_left "/file/d/".toList rest
        rw [hd] at ht
        unfold idRunAt at ht
        simp only [] at ht
        by_cases hl : 25 ≤ (rest.takeWhile isIdChar).length
        · have hsplit : rest = rest.takeWhile isIdChar ++ rest.dropWhile isIdChar :=
            (List.takeWhile_append_dropWhile isIdChar rest).symm
          have := h a (rest.takeWhile isIdChar) (rest.dropWhile isIdChar)
            (by rw [hu, hrest, List.append_assoc, List.append_assoc, ← hsplit])
            (fun c hc => List.mem_takeWhile_imp hc)
            (fun c hc => by
              have := List.head?_dropWhile_not isIdChar rest
              rw [hc] at this
              simpa using this)
          omega
        · rw [if_neg hl] at ht
          cases ht
      · rw [if_neg hs] at ht
        cases ht

/-! ## Facts about time values -/

theorem dayFromYear_cycles (a b c e : Int) (hb0 : 0 ≤ b) (hb : b ≤ 3) (hc0 : 0 ≤ c) (hc : c ≤ 24)
    (he0 : 0 ≤ e) (he : e ≤ 3) :
    DayFromYear (1601 + 400 * a + 100 * b + 4 * c + e)
      = 146097 * a + 36524 * b + 1461 * c + 365 * e - 134774 := by
  unfold DayFromYear
  have h1 : (1601 + 400 * a + 100 * b + 4 * c + e - 1969) / 4 = 100 * a + 25 * b + c - 92 := by omega
  have h2 : (1601 + 400 * a + 100 * b + 4 * c + e - 1901) / 100 = 4 * a + b - 3 := by omega
  have h3 : (1601 + 400 * a + 100 * b + 4 * c + e - 1601) / 400 = a := by omega
  rw [h1, h2, h3]
  omega

theorem leapDays_bounds (y : Int) : 0 ≤ leapDays y ∧ leapDays y ≤ 1 := by
  unfold leapDays
  split_ifs <;> omega

theorem yearFromDay_cycles (d a r b c r4 e : Int) (hr0 : 0 ≤ r) (hr : r < 146097)
    (hd : d + 134774 = 146097 * a + r)
    (hb : b = if r / 36524 < 4 then r / 36524 else 3)
    (hc : c = (r - b * 36524) / 1461) (hr4 : r4 = (r - b * 36524) % 1461)
    (he : e = if r4 / 365 < 4 then r4 / 365 else 3) :
    DayFromYear (1601 + 400 * a + 100 * b + 4 * c + e) ≤ d ∧
      d < DayFromYear (1601 + 400 * a + 100 * b + 4 * c + e) + 365 +
        leapDays (1601 + 400 * a + 100 * b + 4 * c + e) := by
  have hb0 : 0 ≤ b ∧ b ≤ 3 := by
    subst hb
    split_ifs <;> omega
  have hr100 : 0 ≤ r - b * 36524 ∧ r - b * 36524 ≤ 36524 ∧ (b < 3 → r - b * 36524 < 36524) := by
    subst hb
    split_ifs <;> omega
  have hc0 : 0 ≤ c ∧ c ≤ 24 := by omega
  have hr4b : 0 ≤ r4 ∧ r4 < 1461 := by omega
  have he0 : 0 ≤ e ∧ e ≤ 3 := by
    subst he
    split_ifs <;> omega
  have hsplit : r - b * 36524 = 1461 * c + r4 := by omega
  have hrem : 0 ≤ r4 - 365 * e ∧ (r4 - 365 * e < 365 ∨ (r4 = 1460 ∧ e = 3)) := by
    subst he
    split_ifs <;> omega
  rw [dayFromYear_cycles a b c e hb0.1 hb0.2 hc0.1 hc0.2 he0.1 he0.2]
  refine ⟨by omega, ?_⟩
  rcases hrem.2 with h | ⟨h1, h2⟩
  · have := leapDays_bounds (1601 + 400 * a + 100 * b + 4 * c + e)
    omega
  · have hl : leapDays (1601 + 400 * a + 100 * b + 4 * c + e) = 1 := by
      unfold leapDays
      split_ifs <;> omega
    omega

theorem yearFromDay_spec (d : Int) :
    DayFromYear (yearFromDay d) ≤ d ∧
      d < DayFromYear (yearFromDay d) + 365 + leapDays (yearFromDay d) :=
  yearFromDay_cycles d ((d + 134774) / 146097) ((d + 134774) % 146097) _ _ _ _
    (Int.emod_nonneg _ (by decide)) (Int.emod_lt_of_pos _ (by decide))
    (Int.ediv_add_emod _ _).symm rfl rfl rfl rfl

theorem dayWithinYear_bounds (t : Int) :
    0 ≤ DayWithinYear t ∧ DayWithinYear t < 365 + InLeapYear t := by
  have h := yearFromDay_spec (Day t)
  unfold DayWithinYear InLeapYear YearFromTime
  omega

theorem inLeapYear_bounds (t : Int) : 0 ≤ InLeapYear t ∧ InLeapYear t ≤ 1 :=
  leapDays_bounds _

theorem monthOfDay_bounds (d l : Int) : 0 ≤ monthOfDay d l ∧ monthOfDay d l ≤ 11 := by
  unfold monthOfDay
  by_cases h0 : d < 31
  · rw [if_pos h0]
    omega
  rw [if_neg h0]
  by_cases h1 : d < 59 + l
  · rw [if_pos h1]
    omega
  rw [if_neg h1]
  by_cases h2 : d < 90 + l
  · rw [if_pos h2]
    omega
  rw [if_neg h2]
  by_cases h3 : d < 120 + l
  · rw [if_pos h3]
    omega
  rw [if_neg h3]
  by_cases h4 : d < 151 + l
  · rw [if_pos h4]
    omega
  rw [if_neg h4]
  by_cases h5 : d < 181 + l
  · rw [if_pos h5]
    omega
  rw [if_neg h5]
  by_cases h6 : d < 212 + l
  · rw [if_pos h6]
    omega
  rw [if_neg h6]
  by_cases h7 : d < 243 + l
  · rw [if_pos h7]
    omega
  rw [if_neg h7]
  by_cases h8 : d < 273 + l
  · rw [if_pos h8]
    omega
  rw [if_neg h8]
  by_cases h9 : d < 304 + l
  · rw [if_pos h9]
    omega
  rw [if_neg h9]
  by_cases h10 : d < 334 + l
  · rw [if_pos h10]
    omega
  rw [if_neg h10]
  omega

theorem monthFromTime_bounds (t : Int) : 0 ≤ MonthFromTime t ∧ MonthFromTime t ≤ 11 :=
  monthOfDay_bounds _ _

theorem monthStart_monthOfDay (d l : Int) (hd0 : 0 ≤ d) (hd : d < 365 + l) (hl0 : 0 ≤ l)
    (hl : l ≤ 1) :
    1 ≤ d - monthStart (monthOfDay d l) l + 1 ∧ d - monthStart (monthOfDay d l) l + 1 ≤ 31 := by
  unfold monthOfDay
  by_cases h0 : d < 31
  · rw [if_pos h0, show monthStart 0 l = 0 from rfl]
    omega
  rw [if_neg h0]
  by_cases h1 : d < 59 + l
  · rw [if_pos h1, show monthStart 1 l = 31 from rfl]
    omega
  rw [if_neg h1]
  by_cases h2 : d < 90 + l
  · rw [if_pos h2, show monthStart 2 l = 59 + l from rfl]
    omega
  rw [if_neg h2]
  by_cases h3 : d < 120 + l
  · rw [if_pos h3, show monthStart 3 l = 90 + l from rfl]
    omega
  rw [if_neg h3]
  by_cases h4 : d < 151 + l
  · rw [if_pos h4, show monthStart 4 l = 120 + l from rfl]
    omega
  rw [if_neg h4]
  by_cases h5 : d < 181 + l
  · rw [if_pos h5, show monthStart 5 l = 151 + l from rfl]
    omega
  rw [if_neg h5]
  by_cases h6 : d < 212 + l
  · rw [if_pos h6, show monthStart 6 l = 181 + l from rfl]
    omega
  rw [if_neg h6]
  by_cases h7 : d < 243 + l
  · rw [if_pos h7, show monthStart 7 l = 212 + l from rfl]
    omega
  rw [if_neg h7]
  by_cases h8 : d < 273 + l
  · rw [if_pos h8, show monthStart 8 l = 243 + l from rfl]
    omega
  rw [if_neg h8]
  by_cases h9 : d < 304 + l
  · rw [if_pos h9, show monthStart 9 l = 273 + l from rfl]
    omega
  rw [if_neg h9]
  by_cases h10 : d < 334 + l
  · rw [if_pos h10, show monthStart 10 l = 304 + l from rfl]
    omega
  rw [if_neg h10]
  rw [show monthStart 11 l = 334 + l from rfl]
  omega

theorem dateFromTime_bounds (t : Int) : 1 ≤ DateFromTime t ∧ DateFromTime t ≤ 31 := by
  have hd := dayWithinYear_bounds t
  have hl := inLeapYear_bounds t
  exact monthStart_monthOfDay _ _ hd.1 hd.2 hl.1 hl.2

theorem hourFromTime_bounds (t : Int) : 0 ≤ HourFromTime t ∧ HourFromTime t ≤ 23 := by
  unfold HourFromTime
  omega

theorem minFromTime_bounds (t : Int) : 0 ≤ MinFromTime t ∧ MinFromTime t ≤ 59 := by
  unfold MinFromTime
  omega

theorem makeDay_dateFromTime (t k : Int) :
    MakeDay (YearFromTime t) (MonthFromTime t) (DateFromTime t + k) = Day t + k := by
  have hm := monthFromTime_bounds t
  have h1 : MonthFromTime t / 12 = 0 := by omega
  have h2 : MonthFromTime t % 12 = MonthFromTime t := by omega
  unfold MakeDay
  simp only [h1, h2, add_zero]
  unfold DateFromTime DayWithinYear InLeapYear
  omega

theorem makeDate_day (t k : Int) :
    MakeDate (Day t + k) (TimeWithinDay t) = t + k * msPerDay := by
  unfold MakeDate Day TimeWithinDay msPerDay
  omega

theorem revealTime_eq (host : Host) (t : Int) :
    revealTime host t = UTC host (LocalTime host t + 7 * msPerDay) := by
  unfold revealTime
  simp only [makeDay_dateFromTime, makeDate_day]

/-! ## Facts about decimal numerals -/

theorem natDigits_small (f n : Nat) (h : n < 10) : natDigits (f + 1) n = [digitChar n] := by
  simp [natDigits, h]

theorem natDigits_big (f n : Nat) (h : 10 ≤ n) :
    natDigits (f + 1) n = natDigits f (n / 10) ++ [digitChar n] := by
  have h2 : ¬ n < 10 := by omega
  simp [natDigits, h2]

theorem natDigits_four (fuel n : Nat) (hf : 4 ≤ fuel) (h : 1000 ≤ n) (h2 : n ≤ 9999) :
    natDigits fuel n
      = [digitChar (n / 1000), digitChar (n / 100), digitChar (n / 10), digitChar n] := by
  obtain ⟨f, rfl⟩ : ∃ f, fuel = f + 1 + 1 + 1 + 1 := ⟨fuel - 4, by omega⟩
  rw [natDigits_big _ _ (by omega), natDigits_big _ _ (by omega),
    natDigits_big _ _ (by omega), natDigits_small _ _ (by omega)]
  have e1 : n / 10 / 10 = n / 100 := by omega
  have e2 : n / 100 / 10 = n / 1000 := by omega
  simp [e1, e2]

theorem intToString_fourDigits (k : Int) (h : 1000 ≤ k) (h2 : k ≤ 9999) :
    intToString k = fourDigits k := by
  obtain ⟨n, rfl⟩ := Int.eq_ofNat_of_zero_le (by omega : 0 ≤ k)
  have hn : ¬ ((n : Int) < 0) := by omega
  simp only [intToString, hn, if_false, Int.natAbs_ofNat, fourDigits, Int.toNat_ofNat, natToString]
  exact natDigits_four _ _ (by omega) (by omega) (by omega)

theorem padStart2_twoDigits (k : Int) (h : 0 ≤ k) (h2 : k ≤ 99) :
    padStart2 (intToString k) = twoDigits k := by
  obtain ⟨n, rfl⟩ := Int.eq_ofNat_of_zero_le h
  have hn : ¬ ((n : Int) < 0) := by omega
  have hn2 : n ≤ 99 := by omega
  simp only [intToString, hn, if_false, Int.natAbs_ofNat, twoDigits, Int.toNat_ofNat]
  interval_cases n <;> decide

/-! ## Facts about trimming and case-insensitive matching -/

theorem includes_iff_contained (p s : Str) : includes p s = true ↔ p <:+: s := by
  rw [includes_iff]
  constructor
  · rintro ⟨a, b, h⟩
    exact ⟨a, b, h.symm⟩
  · rintro ⟨a, b, h⟩
    exact ⟨a, b, h.symm⟩

theorem noLineTerminator_of_all (u : Str)
    (h : u.all (fun c => !isLineTerminator c) = true) : ∀ c ∈ u, isLineTerminator c = false := by
  intro c hc
  have := List.all_eq_true.1 h c hc
  simpa using this

theorem includes_slash_iff (s : Str) : includes "/".toList s = true ↔ '/' ∈ s := by
  rw [includes_iff]
  constructor
  · rintro ⟨a, b, h⟩
    rw [h]
    simp
  · intro h
    obtain ⟨a, b, hab⟩ := List.append_of_mem h
    exact ⟨a, b, by simp [hab]⟩

theorem dropWhile_append_of_all (p : Char → Bool) (a b : Str) (ha : ∀ c ∈ a, p c = true) :
    (a ++ b).dropWhile p = b.dropWhile p := by
  induction a with
  | nil => rfl
  | cons x a ih =>
    have hx : p x = true := ha x (List.mem_cons_self _ _)
    simp only [List.cons_append, List.dropWhile_cons, hx, if_true]
    exact ih (fun c hc => ha c (List.mem_cons_of_mem _ hc))

theorem dropWhile_of_head (p : Char → Bool) (t : Str)
    (ht : ∀ c, t.head? = some c → p c = false) : t.dropWhile p = t := by
  cases t with
  | nil => rfl
  | cons x t => simp [List.dropWhile_cons, ht x rfl]

theorem dropWhile_of_all (p : Char → Bool) (a : Str) (ha : ∀ c ∈ a, p c = true) :
    a.dropWhile p = [] := by
  have := dropWhile_append_of_all p a [] ha
  simpa using this

theorem trim_of_split (pre t post : Str) (hpre : ∀ c ∈ pre, isWhiteSpace c = true)
    (hpost : ∀ c ∈ post, isWhiteSpace c = true)
    (hhead : ∀ c, t.head? = some c → isWhiteSpace c = false)
    (hlast : ∀ c, t.getLast? = some c → isWhiteSpace c = false) :
    trim (pre ++ t ++ post) = t := by
  unfold trim
  rw [List.append_assoc, dropWhile_append_of_all _ pre _ hpre]
  cases t with
  | nil =>
    rw [List.nil_append, dropWhile_of_all _ post hpost]
    rfl
  | cons x t =>
    rw [dropWhile_of_head _ (x :: t ++ post) (fun c hc => hhead c (by simpa using hc))]
    rw [List.reverse_append,
      dropWhile_append_of_all _ post.reverse _ (fun c hc => hpost c (List.mem_reverse.1 hc)),
      dropWhile_of_head _ (x :: t).reverse (fun c hc => hlast c (by
        rw [List.head?_reverse] at hc
        exact hc)),
      List.reverse_reverse]

theorem trim_split_exists (s : Str) :
    ∃ pre t post, s = pre ++ t ++ post ∧ (∀ c ∈ pre, isWhiteSpace c = true) ∧
      (∀ c ∈ post, isWhiteSpace c = true) ∧
      (∀ c, t.head? = some c → isWhiteSpace c = false) ∧
      (∀ c, t.getLast? = some c → isWhiteSpace c = false) := by
  have h1 : s = s.takeWhile isWhiteSpace ++ s.dropWhile isWhiteSpace :=
    (List.takeWhile_append_dropWhile isWhiteSpace s).symm
  have h2 : (s.dropWhile isWhiteSpace).reverse
      = (s.dropWhile isWhiteSpace).reverse.takeWhile isWhiteSpace ++
        (s.dropWhile isWhiteSpace).reverse.dropWhile isWhiteSpace :=
    (List.takeWhile_append_dropWhile isWhiteSpace _).symm
  have h3 : s.dropWhile isWhiteSpace
      = ((s.dropWhile isWhiteSpace).reverse.dropWhile isWhiteSpace).reverse ++
        ((s.dropWhile isWhiteSpace).reverse.takeWhile isWhiteSpace).reverse := by
    rw [← List.reverse_append, ← h2, List.reverse_reverse]
  refine ⟨s.takeWhile isWhiteSpace,
    ((s.dropWhile isWhiteSpace).reverse.dropWhile isWhiteSpace).reverse,
    ((s.dropWhile isWhiteSpace).reverse.takeWhile isWhiteSpace).reverse, ?_, ?_, ?_, ?_, ?_⟩
  · rw [List.append_assoc, ← h3]
    exact h1
  · intro c hc
    exact List.mem_takeWhile_imp hc
  · intro c hc
    exact List.mem_takeWhile_imp (List.mem_reverse.1 hc)
  · intro c hc
    have hne : ((s.dropWhile isWhiteSpace).reverse.dropWhile isWhiteSpace).reverse ≠ [] := by
      intro h0
      rw [h0] at hc
      simp at hc
    have hh : (s.dropWhile isWhiteSpace).head? = some c := by
      rw [h3, List.head?_append_of_ne_nil _ hne]
      exact hc
    have := List.head?_dropWhile_not isWhiteSpace s
    rw [hh] at this
    simpa using this
  · intro c hc
    rw [List.getLast?_reverse] at hc
    have := List.head?_dropWhile_not isWhiteSpace (s.dropWhile isWhiteSpace).reverse
    rw [hc] at this
    simpa using this

theorem char_toNat_ofNat (m : Nat) (h : m < 0xD800) : (Char.ofNat m).toNat = m := by
  have hv : m.isValidChar := Or.inl h
  rw [Char.ofNat, dif_pos hv]
  rfl

theorem char_eq_iff_toNat (a b : Char) : a = b ↔ a.toNat = b.toNat := by
  constructor
  · intro h
    rw [h]
  · intro h
    rw [← Char.ofNat_toNat a, ← Char.ofNat_toNat b, h]

theorem asciiUpper_toNat (c : Char) :
    (asciiUpper c).toNat = if 97 ≤ c.toNat ∧ c.toNat ≤ 122 then c.toNat - 32 else c.toNat := by
  unfold asciiUpper
  split_ifs with h
  · exact char_toNat_ofNat _ (by omega)
  · rfl

theorem toLower_toNat (c : Char) :
    c.toLower.toNat = if 65 ≤ c.toNat ∧ c.toNat ≤ 90 then c.toNat + 32 else c.toNat := by
  unfold Char.toLower
  simp only [ge_iff_le]
  split_ifs with h
  · exact char_toNat_ofNat _ (by omega)
  · rfl

theorem asciiUpper_eq_iff (a b : Char) :
    asciiUpper a = asciiUpper b ↔ a.toLower = b.toLower := by
  rw [char_eq_iff_toNat, char_eq_iff_toNat a.toLower, asciiUpper_toNat, asciiUpper_toNat,
    toLower_toNat, toLower_toNat]
  split_ifs <;> omega

theorem startsWithCI_iff (p s : Str) :
    startsWithCI p s = true ↔ (s.take p.length).map Char.toLower = p.map Char.toLower := by
  induction p generalizing s with
  | nil => simp [startsWithCI]
  | cons a p ih =>
    cases s with
    | nil => simp [startsWithCI]
    | cons b s =>
      simp only [startsWithCI, Bool.and_eq_true, beq_iff_eq, ih, List.length_cons,
        List.take_succ_cons, List.map_cons, List.cons.injEq, asciiUpper_eq_iff]
      constructor
      · rintro ⟨h1, h2⟩
        exact ⟨h1.symm, h2⟩
      · rintro ⟨h1, h2⟩
        exact ⟨h1.symm, h2⟩

theorem isWebUrl_eq (t : Str) : isWebUrl t = startsWithHttpIgnoringCase t := by
  have h1 := startsWithCI_iff "http://".toList t
  have h2 := startsWithCI_iff "https://".toList t
  have e1 : "http://".toList.map Char.toLower = "http://".toList := by decide
  have e2 : "https://".toList.map Char.toLower = "https://".toList := by decide
  have l1 : "http://".toList.length = 7 := by decide
  have l2 : "https://".toList.length = 8 := by decide
  rw [e1, l1] at h1
  rw [e2, l2] at h2
  unfold isWebUrl startsWithHttpIgnoringCase
  cases ha : startsWithCI "http://".toList t <;> cases hb : startsWithCI "https://".toList t <;>
    simp_all

/-! ## Facts about the row loop -/

theorem getCellValue_ok (host : Host) (row : Row) (idx : Nat) :
    ∃ v, getCellValue host row idx = Except.ok v := by
  unfold getCellValue
  generalize cellValue row idx = val
  cases val with
  | obj text result hyperlink =>
    simp only [truthy, isObject, Bool.and_self, if_true, getProp, bind, Except.bind, pure,
      Except.pure]
    split_ifs <;> exact ⟨_, rfl⟩
  | date t => simp [truthy, isObject, getProp, bind, Except.bind, pure, Except.pure]
  | _ => simp [truthy, isObject, pure, Except.pure]

theorem getCellValue_str (host : Host) (row : Row) (idx : Nat) (s : Str)
    (h : cellValue row idx = JSVal.str s) :
    getCellValue host row idx = Except.ok (JSVal.str s) := by
  unfold getCellValue
  rw [h]
  cases s with
  | nil => simp [truthy, isObject, pure, Except.pure]
  | cons c s => simp [truthy, isObject, pure, Except.pure, toStr]

theorem processRow_of_date (host : Host) (row : Row) (dateStr : Str)
    (hd : resolveDate host row = Except.ok dateStr) :
    (isBlank dateStr = true → processRow host row = Except.ok none) ∧
    (isBlank dateStr = false → ∀ s, getCellValue host row 6 = Except.ok (JSVal.str s) →
      ∃ artist eventName location seat,
        getCellValue host row 2 = Except.ok artist ∧
        getCellValue host row 3 = Except.ok eventName ∧
        getCellValue host row 4 = Except.ok location ∧
        getCellValue host row 5 = Except.ok seat ∧
        processRow host row = Except.ok (some
          { date := dateStr, artist := artist, eventName := eventName, location := location,
            seat := seat, imageUrl := resolveImage (trim s) })) := by
  constructor
  · intro hb
    simp [processRow, hd, hb, bind, Except.bind, pure, Except.pure]
  · intro hb s h6
    obtain ⟨a, ha⟩ := getCellValue_ok host row 2
    obtain ⟨e, he⟩ := getCellValue_ok host row 3
    obtain ⟨l, hl⟩ := getCellValue_ok host row 4
    obtain ⟨st, hst⟩ := getCellValue_ok host row 5
    refine ⟨a, e, l, st, ha, he, hl, hst, ?_⟩
    simp [processRow, hd, hb, h6, ha, he, hl, hst, callTrim, bind, Except.bind, pure, Except.pure]

theorem processRow_isSome (host : Host) (row : Row) (o : Option Event)
    (h : processRow host row = Except.ok o) :
    ∃ dateStr, resolveDate host row = Except.ok dateStr ∧ o.isSome = !isBlank dateStr := by
  cases hd : resolveDate host row with
  | error e => simp [processRow, hd, bind, Except.bind] at h
  | ok d =>
    refine ⟨d, rfl, ?_⟩
    cases hb : isBlank d with
    | true =>
      have := (processRow_of_date host row d hd).1 hb
      rw [this] at h
      cases h
      rfl
    | false =>
      obtain ⟨a, ha⟩ := getCellValue_ok host row 2
      obtain ⟨e, he⟩ := getCellValue_ok host row 3
      obtain ⟨l, hl⟩ := getCellValue_ok host row 4
      obtain ⟨st, hst⟩ := getCellValue_ok host row 5
      obtain ⟨c6, h6⟩ := getCellValue_ok host row 6
      cases ht : callTrim c6 with
      | error e =>
        simp [processRow, hd, hb, h6, ht, bind, Except.bind, pure, Except.pure] at h
      | ok r =>
        simp [processRow, hd, hb, h6, ht, ha, he, hl, hst, bind, Except.bind, pure,
          Except.pure] at h
        subst h
        rfl

theorem rowLoop_length (host : Host) (ws : Worksheet)
    (hok : ∀ r ∈ ws, r.1 ≠ 1 → ∃ o, processRow host r.2 = Except.ok o) (acc : List Event) :
    ∃ events, rowLoop host ws acc = Except.ok events ∧
      events.length = acc.length + keptCount host ws := by
  induction ws generalizing acc with
  | nil => exact ⟨acc, rfl, by simp [keptCount]⟩
  | cons r ws ih =>
    obtain ⟨n, row⟩ := r
    have hok2 : ∀ r ∈ ws, r.1 ≠ 1 → ∃ o, processRow host r.2 = Except.ok o :=
      fun r hr => hok r (List.mem_cons_of_mem _ hr)
    by_cases hn : n = 1
    · obtain ⟨events, he, hl⟩ := ih hok2 acc
      refine ⟨events, by simp [rowLoop, hn, he], ?_⟩
      simp [hl, keptCount, List.filter_cons, dateKept, hn]
    · obtain ⟨o, ho⟩ := hok (n, row) (List.mem_cons_self _ _) hn
      obtain ⟨d, hd, hsome⟩ := processRow_isSome host row o ho
      cases o with
      | none =>
        obtain ⟨events, he, hl⟩ := ih hok2 acc
        refine ⟨events, by simp [rowLoop, hn, ho, he], ?_⟩
        have hb : isBlank d = true := by simpa using hsome
        simp [hl, keptCount, List.filter_cons, dateKept, hn, hd, hb]
      | some ev =>
        obtain ⟨events, he, hl⟩ := ih hok2 (acc ++ [ev])
        refine ⟨events, by simp [rowLoop, hn, ho, he], ?_⟩
        have hb : isBlank d = false := by simpa using hsome
        simp [hl, keptCount, List.filter_cons, dateKept, hn, hd, hb]
        omega

/-! ## Facts about the sort step -/

theorem insertEvent_perm (cmp : Event → Event → Int) (x : Event) (l : List Event) :
    (insertEvent cmp x l).Perm (x :: l) := by
  induction l with
  | nil => exact List.Perm.refl _
  | cons y ys ih =>
    unfold insertEvent
    split_ifs
    · exact List.Perm.refl _
    · exact (List.Perm.cons y ih).trans (List.Perm.swap x y ys)

theorem sortWith_perm (cmp : Event → Event → Int) (l : List Event) :
    (sortWith cmp l).Perm l := by
  induction l with
  | nil => exact List.Perm.refl _
  | cons x xs ih =>
    unfold sortWith
    exact (insertEvent_perm cmp x _).trans (List.Perm.cons x ih)

theorem compareEvents_of_times (host : Host) (a b : Event) (ta tb : Int)
    (ha : eventTime host a = some ta) (hb : eventTime host b = some tb) :
    compareEvents host a b = tb - ta := by
  simp [compareEvents, ha, hb]

theorem insertEvent_sorted (host : Host) (x : Event) (l : List Event)
    (hx : (eventTime host x).isSome = true)
    (hl : ∀ e ∈ l, (eventTime host e).isSome = true)
    (hs : l.Pairwise (fun a b => ∃ ta tb, eventTime host a = some ta ∧
      eventTime host b = some tb ∧ tb ≤ ta)) :
    (insertEvent (compareEvents host) x l).Pairwise (fun a b => ∃ ta tb,
      eventTime host a = some ta ∧ eventTime host b = some tb ∧ tb ≤ ta) := by
  obtain ⟨tx, htx⟩ := Option.isSome_iff_exists.1 hx
  induction l with
  | nil => simp [insertEvent]
  | cons y ys ih =>
    obtain ⟨ty, hty⟩ := Option.isSome_iff_exists.1 (hl y (List.mem_cons_self _ _))
    have hys : ∀ e ∈ ys, (eventTime host e).isSome = true :=
      fun e he => hl e (List.mem_cons_of_mem _ he)
    rw [List.pairwise_cons] at hs
    unfold insertEvent
    rw [compareEvents_of_times host x y tx ty htx hty]
    split_ifs with hc
    · refine List.Pairwise.cons ?_ (List.Pairwise.cons hs.1 hs.2)
      intro z hz
      rcases List.mem_cons.1 hz with rfl | hz
      · exact ⟨tx, ty, htx, hty, by omega⟩
      · obtain ⟨ty2, tz, h1, h2, h3⟩ := hs.1 z hz
        have : ty2 = ty := by
          rw [hty] at h1
          exact (Option.some.inj h1).symm
        exact ⟨tx, tz, htx, h2, by omega⟩
    · refine List.Pairwise.cons ?_ (ih hys hs.2)
      intro z hz
      have hz2 : z ∈ x :: ys := (insertEvent_perm _ x ys).mem_iff.1 hz
      rcases List.mem_cons.1 hz2 with rfl | hz3
      · exact ⟨ty, tx, hty, htx, by omega⟩
      · exact hs.1 z hz3

theorem sortWith_sorted (host : Host) (l : List Event)
    (hl : ∀ e ∈ l, (eventTime host e).isSome = true) :
    (sortWith (compareEvents host) l).Pairwise (fun a b => ∃ ta tb,
      eventTime host a = some ta ∧ eventTime host b = some tb ∧ tb ≤ ta) := by
  induction l with
  | nil => simp [sortWith]
  | cons x xs ih =>
    have hxs : ∀ e ∈ xs, (eventTime host e).isSome = true :=
      fun e he => hl e (List.mem_cons_of_mem _ he)
    unfold sortWith
    refine insertEvent_sorted host x _ (hl x (List.mem_cons_self _ _)) ?_ (ih hxs)
    intro e he
    exact hxs e ((sortWith_perm _ xs).mem_iff.1 he)

/-! ## `getExportUrl`, `convertDriveLink` and `updateProfileImage` -/

/-- C6: for every URL string `u` (a string that holds no line terminator, as no
URL does), `getExportUrl(u)` is `u` with its first `/pubhtml` replaced by
`/pub?output=xlsx` when `u` contains `/pubhtml`; otherwise, when `u` contains
`/edit`, it is the part of `u` before the first `/edit` followed by
`/export?format=xlsx`, with nothing of `u` from the edit segment onward
remaining; and it is `u` unchanged when `u` contains neither. -/
theorem getExportUrl_spec (u : Str) (hurl : ∀ c ∈ u, isLineTerminator c = false) :
    ("/pubhtml".toList <:+: u →
      ∃ a b, u = a ++ "/pubhtml".toList ++ b ∧
        (∀ a' b', u = a' ++ "/pubhtml".toList ++ b' → a.length ≤ a'.length) ∧
        getExportUrl u = a ++ "/pub?output=xlsx".toList ++ b) ∧
    (¬ "/pubhtml".toList <:+: u → "/edit".toList <:+: u →
      ∃ a b, u = a ++ "/edit".toList ++ b ∧
        (∀ a' b', u = a' ++ "/edit".toList ++ b' → a.length ≤ a'.length) ∧
        getExportUrl u = a ++ "/export?format=xlsx".toList) ∧
    (¬ "/pubhtml".toList <:+: u → ¬ "/edit".toList <:+: u → getExportUrl u = u) := by
  refine ⟨?_, ?_, ?_⟩
  · intro hp
    have hp2 := (includes_iff_contained _ _).2 hp
    obtain ⟨a, b, hab, hmin, hrep⟩ := replaceFirst_spec _ "/pub?output=xlsx".toList u hp2
    exact ⟨a, b, hab, hmin, by simp only [getExportUrl, hp2, if_true, hrep]⟩
  · intro hp he
    have hp2 : includes "/pubhtml".toList u = false := by
      cases h : includes "/pubhtml".toList u with
      | false => rfl
      | true => exact absurd ((includes_iff_contained _ _).1 h) hp
    have he2 := (includes_iff_contained _ _).2 he
    obtain ⟨a, b, hab, hmin, hrep⟩ :=
      replaceLitDotStar_spec _ "/export?format=xlsx".toList u he2
    refine ⟨a, b, hab, hmin, ?_⟩
    have hd : b.dropWhile (fun x => !isLineTerminator x) = [] := by
      rw [List.dropWhile_eq_nil_iff]
      intro c hc
      have hcu : c ∈ u := by
        rw [hab]
        exact List.mem_append_right _ hc
      simp [hurl c hcu]
    simp only [getExportUrl, hp2, he2, if_true, Bool.false_eq_true, if_false, hrep, hd,
      List.append_nil]
  · intro hp he
    have hp2 : includes "/pubhtml".toList u = false := by
      cases h : includes "/pubhtml".toList u with
      | false => rfl
      | true => exact absurd ((includes_iff_contained _ _).1 h) hp
    have he2 : includes "/edit".toList u = false := by
      cases h : includes "/edit".toList u with
      | false => rfl
      | true => exact absurd ((includes_iff_contained _ _).1 h) he
    simp only [getExportUrl, hp2, he2, Bool.false_eq_true, if_false]

/-- Witness for `getExportUrl_spec`: the three branches at the script's own
constant, at an edit link, and at a link of neither shape. -/
theorem getExportUrl_spec_witness :
    (∃ a b, GOOGLE_SHEET_URL = a ++ "/pubhtml".toList ++ b ∧
        (∀ a' b', GOOGLE_SHEET_URL = a' ++ "/pubhtml".toList ++ b' → a.length ≤ a'.length) ∧
        getExportUrl GOOGLE_SHEET_URL = a ++ "/pub?output=xlsx".toList ++ b) ∧
    (∃ a b, "https://docs.google.com/spreadsheets/d/abc/edit#gid=0".toList
          = a ++ "/edit".toList ++ b ∧
        (∀ a' b', "https://docs.google.com/spreadsheets/d/abc/edit#gid=0".toList
          = a' ++ "/edit".toList ++ b' → a.length ≤ a'.length) ∧
        getExportUrl "https://docs.google.com/spreadsheets/d/abc/edit#gid=0".toList
          = a ++ "/export?format=xlsx".toList) ∧
    getExportUrl "https://example.com/sheet".toList = "https://example.com/sheet".toList :=
  ⟨(getExportUrl_spec GOOGLE_SHEET_URL (noLineTerminator_of_all _ (by decide))).1
      ((includes_iff_contained _ _).1 (by decide)),
   (getExportUrl_spec "https://docs.google.com/spreadsheets/d/abc/edit#gid=0".toList
      (by decide)).2.1
      (fun h => absurd ((includes_iff_contained _ _).2 h) (by decide))
      ((includes_iff_contained _ _).1 (by decide)),
   (getExportUrl_spec "https://example.com/sheet".toList (by decide)).2.2
      (fun h => absurd ((includes_iff_contained _ _).2 h) (by decide))
      (fun h => absurd ((includes_iff_contained _ _).2 h) (by decide))⟩

/-- The values of `getExportUrl` at the script's constant and at an edit link. -/
theorem getExportUrl_values :
    getExportUrl GOOGLE_SHEET_URL =
      "https://docs.google.com/spreadsheets/d/e/2PACX-1vQ1iHfm2TwBzjzR9d72k98CfyKF8lDlAfFDCuv8A_SLeMfIofhtczuliDnFVemB22vnt_lPOhBSU3eD/pub?output=xlsx".toList ∧
    getExportUrl "https://docs.google.com/spreadsheets/d/abc/edit#gid=0".toList
      = "https://docs.google.com/spreadsheets/d/abc/export?format=xlsx".toList := by
  decide

/-- Outside URL strings: on a string with a line feed after `/edit`, the `.*` of
the pattern stops at the line feed, which stays with what follows it. -/
theorem getExportUrl_at_line_feed :
    getExportUrl ("https://docs.google.com/spreadsheets/d/abc/edit".toList ++
        Char.ofNat 10 :: "#gid=0".toList)
      = "https://docs.google.com/spreadsheets/d/abc/export?format=xlsx".toList ++
        Char.ofNat 10 :: "#gid=0".toList := by
  decide

/-- C5 (amended): `convertDriveLink(u)` is
`https://lh3.googleusercontent.com/d/<id>` when the leftmost match of
`/file/d/<id>` in `u` has the maximal run `<id>` of 25 or more characters from
letters, digits, `_` and `-`; when `u` has no such segment but contains
`drive.google.com` or `docs.google.com`, it is the same prefix followed by the
leftmost maximal run of 25 or more such characters anywhere in `u`; and it is
`u` unchanged when `u` has no such segment and either names neither host or
has no such run. -/
theorem convertDriveLink_spec (u : Str) :
    (∀ a id b, u = a ++ "/file/d/".toList ++ id ++ b → 25 ≤ id.length →
      (∀ c ∈ id, isIdChar c = true) → (∀ c, b.head? = some c → isIdChar c = false) →
      (∀ k, k < a.length → fileMatchAt (u.drop k) = none) →
      convertDriveLink u = lh3 ++ id) ∧
    (fileMatch u = none → isDriveLink u = true →
      ∀ a id b, u = a ++ id ++ b → 25 ≤ id.length →
      (∀ c ∈ id, isIdChar c = true) → (∀ c, b.head? = some c → isIdChar c = false) →
      (∀ k, k < a.length → idRunAt (u.drop k) = none) →
      convertDriveLink u = lh3 ++ id) ∧
    (fileMatch u = none → (isDriveLink u = false ∨ idMatch u = none) →
      convertDriveLink u = u) := by
  refine ⟨?_, ?_, ?_⟩
  · intro a id b hu hlen hid hb hfirst
    have hm := fileMatch_of_split u a id b hu hlen hid hb hfirst
    have hne : u.isEmpty = false := by
      cases u with
      | nil => simp [fileMatch, leftmost] at hm
      | cons c u => rfl
    simp only [convertDriveLink, hne, Bool.false_eq_true, if_false, hm]
  · intro hm hhost a id b hu hlen hid hb hfirst
    have hi := idMatch_of_split u a id b hu hlen hid hb hfirst
    have hne : u.isEmpty = false := by
      cases u with
      | nil => simp [idMatch, leftmost] at hi
      | cons c u => rfl
    simp only [convertDriveLink, hne, Bool.false_eq_true, if_false, hm, hhost, if_true, hi]
  · intro hm h
    cases hu : u.isEmpty with
    | true => simp only [convertDriveLink, hu, if_true]
    | false =>
      rcases h with h | h
      · simp only [convertDriveLink, hu, Bool.false_eq_true, if_false, hm, h]
      · cases hd : isDriveLink u with
        | true => simp only [convertDriveLink, hu, Bool.false_eq_true, if_false, hm, hd, if_true, h]
        | false => simp only [convertDriveLink, hu, Bool.false_eq_true, if_false, hm, hd]

/-- Witness for `convertDriveLink_spec`: a file-sharing link, a drive link
without a `/file/d/` segment, and a link that is left alone. -/
theorem convertDriveLink_spec_witness :
    convertDriveLink
        "https://drive.google.com/file/d/1AbCdEfGhIjKlMnOpQrStUvWxYz_-0/view".toList
      = lh3 ++ "1AbCdEfGhIjKlMnOpQrStUvWxYz_-0".toList ∧
    convertDriveLink "https://drive.google.com/open?id=1AbCdEfGhIjKlMnOpQrStUvWxYz_-0".toList
      = lh3 ++ "1AbCdEfGhIjKlMnOpQrStUvWxYz_-0".toList ∧
    convertDriveLink "https://example.com/a/pic.png".toList
      = "https://example.com/a/pic.png".toList :=
  ⟨(convertDriveLink_spec _).1 "https://drive.google.com".toList
      "1AbCdEfGhIjKlMnOpQrStUvWxYz_-0".toList "/view".toList (by decide) (by decide)
      (by decide) (by decide) (by decide),
   (convertDriveLink_spec _).2.1 (by decide) (by decide)
      "https://drive.google.com/open?id=".toList
      "1AbCdEfGhIjKlMnOpQrStUvWxYz_-0".toList [] (by decide) (by decide)
      (by decide) (by decide) (by decide),
   (convertDriveLink_spec _).2.2 (by decide) (Or.inl (by decide))⟩

/-- Counterexample to C5 as stated: a link with no `/file/d/<id>` segment is
rewritten all the same when it names `drive.google.com` and carries a run of 25
identifier characters. -/
theorem convertDriveLink_rewrites_without_file_segment :
    fileMatch "https://drive.google.com/open?id=1AbCdEfGhIjKlMnOpQrStUvWxYz_-0".toList = none ∧
    convertDriveLink "https://drive.google.com/open?id=1AbCdEfGhIjKlMnOpQrStUvWxYz_-0".toList
      = "https://lh3.googleusercontent.com/d/1AbCdEfGhIjKlMnOpQrStUvWxYz_-0".toList ∧
    convertDriveLink "https://drive.google.com/open?id=1AbCdEfGhIjKlMnOpQrStUvWxYz_-0".toList
      ≠ "https://drive.google.com/open?id=1AbCdEfGhIjKlMnOpQrStUvWxYz_-0".toList := by
  decide

/-- C10 (amended): for every URL string `u` that contains `drive.google.com` or
`docs.google.com` and has a `/file/d/<id>` segment with an id of 25 or more
characters, that is whenever `updateProfileImage` rewrites the avatar, the
source it leaves on the avatar equals `convertDriveLink(u)`; for every other
`u`, one that names neither host or in which every run of identifier characters
after a `/file/d/` is shorter than 25, `updateProfileImage` leaves `u` in
place. -/
theorem updateProfileImage_eq_convertDriveLink (u : Str) :
    (∀ a id b, ("drive.google.com".toList <:+: u ∨ "docs.google.com".toList <:+: u) →
      u = a ++ "/file/d/".toList ++ id ++ b → 25 ≤ id.length →
      (∀ c ∈ id, isIdChar c = true) → (∀ c, b.head? = some c → isIdChar c = false) →
      (∀ k, k < a.length → fileMatchAt (u.drop k) = none) →
      updateProfileImage (some u) = some (lh3 ++ id) ∧ convertDriveLink u = lh3 ++ id) ∧
    (("drive.google.com".toList <:+: u ∨ "docs.google.com".toList <:+: u) →
      (fileMatch u).isSome = true →
      updateProfileImage (some u) = some (convertDriveLink u)) ∧
    ((¬ ("drive.google.com".toList <:+: u ∨ "docs.google.com".toList <:+: u) ∨
        (∀ a id b, u = a ++ "/file/d/".toList ++ id ++ b → (∀ c ∈ id, isIdChar c = true) →
          (∀ c, b.head? = some c → isIdChar c = false) → id.length < 25)) →
      updateProfileImage (some u) = some u) := by
  have hhost : isDriveLink u = true ↔
      ("drive.google.com".toList <:+: u ∨ "docs.google.com".toList <:+: u) := by
    simp only [isDriveLink, Bool.or_eq_true, includes_iff_contained]
  have key : isDriveLink u = true → ∀ id, fileMatch u = some id →
      updateProfileImage (some u) = some (lh3 ++ id) ∧ convertDriveLink u = lh3 ++ id := by
    intro hh id hid
    have hne : u.isEmpty = false := by
      cases u with
      | nil => simp [fileMatch, leftmost] at hid
      | cons c u => rfl
    simp [updateProfileImage, convertDriveLink, hne, hh, hid]
  refine ⟨?_, ?_, ?_⟩
  · intro a id b hh hu hlen hid hb hfirst
    exact key (hhost.2 hh) id (fileMatch_of_split u a id b hu hlen hid hb hfirst)
  · intro hh hm
    obtain ⟨id, hid⟩ := Option.isSome_iff_exists.1 hm
    obtain ⟨h1, h2⟩ := key (hhost.2 hh) id hid
    rw [h1, h2]
  · intro h
    rcases h with h | h
    · have hd : isDriveLink u = false := by
        cases hx : isDriveLink u with
        | false => rfl
        | true => exact absurd (hhost.1 hx) h
      simp [updateProfileImage, hd]
    · have hn := (fileMatch_eq_none_iff u).2 h
      cases hd : (!u.isEmpty && isDriveLink u) with
      | false => simp [updateProfileImage, hd]
      | true => simp [updateProfileImage, hd, hn]

/-- Witness for `updateProfileImage_eq_convertDriveLink`: a drive file link is
rewritten to the value of `convertDriveLink`, and a file link on another host
and a drive link without a `/file/d/` segment stay in place. -/
theorem updateProfileImage_eq_convertDriveLink_witness :
    (updateProfileImage
        (some "https://drive.google.com/file/d/1AbCdEfGhIjKlMnOpQrStUvWxYz_-0/view".toList)
      = some (lh3 ++ "1AbCdEfGhIjKlMnOpQrStUvWxYz_-0".toList) ∧
     convertDriveLink "https://drive.google.com/file/d/1AbCdEfGhIjKlMnOpQrStUvWxYz_-0/view".toList
      = lh3 ++ "1AbCdEfGhIjKlMnOpQrStUvWxYz_-0".toList) ∧
    updateProfileImage
        (some "https://docs.google.com/file/d/1AbCdEfGhIjKlMnOpQrStUvWxYz_-0/view".toList)
      = some (convertDriveLink
        "https://docs.google.com/file/d/1AbCdEfGhIjKlMnOpQrStUvWxYz_-0/view".toList) ∧
    updateProfileImage
        (some "https://example.com/file/d/1AbCdEfGhIjKlMnOpQrStUvWxYz_-0/view".toList)
      = some "https://example.com/file/d/1AbCdEfGhIjKlMnOpQrStUvWxYz_-0/view".toList ∧
    updateProfileImage
        (some "https://drive.google.com/open?id=1AbCdEfGhIjKlMnOpQrStUvWxYz_-0".toList)
      = some "https://drive.google.com/open?id=1AbCdEfGhIjKlMnOpQrStUvWxYz_-0".toList :=
  ⟨(updateProfileImage_eq_convertDriveLink _).1 "https://drive.google.com".toList
      "1AbCdEfGhIjKlMnOpQrStUvWxYz_-0".toList "/view".toList
      (Or.inl ((includes_iff_contained _ _).1 (by decide))) (by decide) (by decide) (by decide)
      (by decide) (by decide),
   (updateProfileImage_eq_convertDriveLink _).2.1
      (Or.inr ((includes_iff_contained _ _).1 (by decide))) (by decide),
   (updateProfileImage_eq_convertDriveLink _).2.2
      (Or.inl (fun h => h.elim
        (fun h1 => absurd ((includes_iff_contained _ _).2 h1) (by decide))
        (fun h2 => absurd ((includes_iff_contained _ _).2 h2) (by decide)))),
   (updateProfileImage_eq_convertDriveLink _).2.2
      (Or.inr ((fileMatch_eq_none_iff _).1 (by decide)))⟩

/-- Counterexample to C10 as stated: `updateProfileImage` leaves alone a
file-sharing link on another host and a drive link without a `/file/d/`
segment, and `convertDriveLink` rewrites both. -/
theorem updateProfileImage_differs_from_convertDriveLink :
    (updateProfileImage
        (some "https://example.com/file/d/1AbCdEfGhIjKlMnOpQrStUvWxYz_-0/view".toList)
      = some "https://example.com/file/d/1AbCdEfGhIjKlMnOpQrStUvWxYz_-0/view".toList ∧
     convertDriveLink "https://example.com/file/d/1AbCdEfGhIjKlMnOpQrStUvWxYz_-0/view".toList
      = "https://lh3.googleusercontent.com/d/1AbCdEfGhIjKlMnOpQrStUvWxYz_-0".toList) ∧
    (updateProfileImage
        (some "https://drive.google.com/open?id=1AbCdEfGhIjKlMnOpQrStUvWxYz_-0".toList)
      = some "https://drive.google.com/open?id=1AbCdEfGhIjKlMnOpQrStUvWxYz_-0".toList ∧
     convertDriveLink "https://drive.google.com/open?id=1AbCdEfGhIjKlMnOpQrStUvWxYz_-0".toList
      = "https://lh3.googleusercontent.com/d/1AbCdEfGhIjKlMnOpQrStUvWxYz_-0".toList) := by
  decide

/-! ## The row loop: dates, images and the Event list -/

/-- C3 (amended): for a `Date` cell with time value `t`, the date text is the
decimal numeral of the UTC year (four digits for the years 1000 to 9999), a dot,
the two-digit zero-padded UTC month, a dot, the two-digit zero-padded UTC day,
and then a space and the two-digit UTC hour, a colon and the two-digit UTC
minute if and only if the UTC hour or the UTC minute is nonzero; seconds and
milliseconds are not looked at.  A value at 00:00 has no time component and a
value with nonzero minutes has one. -/
theorem formatDate_spec (t : Int) :
    (∀ (host : Host) (rest : Row), resolveDate host (JSVal.date t :: rest)
      = Except.ok (formatDate t)) ∧
    formatDate t =
      intToString (YearFromTime t) ++ ".".toList ++ twoDigits (MonthFromTime t + 1) ++
        ".".toList ++ twoDigits (DateFromTime t) ++
        (if HourFromTime t ≠ 0 ∨ MinFromTime t ≠ 0 then
          " ".toList ++ twoDigits (HourFromTime t) ++ ":".toList ++ twoDigits (MinFromTime t)
        else []) ∧
    (1000 ≤ YearFromTime t → YearFromTime t ≤ 9999 →
      intToString (YearFromTime t) = fourDigits (YearFromTime t)) ∧
    (1 ≤ MonthFromTime t + 1 ∧ MonthFromTime t + 1 ≤ 12) ∧
    (1 ≤ DateFromTime t ∧ DateFromTime t ≤ 31) ∧
    (0 ≤ HourFromTime t ∧ HourFromTime t ≤ 23) ∧
    (0 ≤ MinFromTime t ∧ MinFromTime t ≤ 59) := by
  have hm := monthFromTime_bounds t
  have hd := dateFromTime_bounds t
  have hh := hourFromTime_bounds t
  have hmin := minFromTime_bounds t
  refine ⟨fun host rest => rfl, ?_, fun h1 h2 => intToString_fourDigits _ h1 h2,
    ⟨by omega, by omega⟩, hd, hh, hmin⟩
  unfold formatDate
  simp only [padStart2_twoDigits (MonthFromTime t + 1) (by omega) (by omega),
    padStart2_twoDigits (DateFromTime t) (by omega) (by omega),
    padStart2_twoDigits (HourFromTime t) hh.1 (by omega),
    padStart2_twoDigits (MinFromTime t) hmin.1 (by omega)]
  split_ifs <;> simp

/-- Witness for `formatDate_spec`: the year of 1 March 2024, 10:30 UTC, is
written with four digits. -/
theorem formatDate_spec_witness :
    intToString (YearFromTime 1709289000000) = fourDigits (YearFromTime 1709289000000) :=
  (formatDate_spec 1709289000000).2.2.1 (by decide) (by decide)

/-- Counterexample to C3 as stated: thirty seconds past midnight has a nonzero
UTC time of day and yet no time component, and a date in the year 999 has a
three-digit year. -/
theorem formatDate_not_as_stated :
    (TimeWithinDay 30000 ≠ 0 ∧ formatDate 30000 = "1970.01.01".toList) ∧
    (YearFromTime (-30641760000000) = 999 ∧
      formatDate (-30641760000000) = "999.01.01".toList) := by
  decide

/-- C4: for every row that is kept and whose ImageRef cell holds the text
`pre ++ t ++ post`, where `pre` and `post` are white space and `t` neither
starts nor ends with white space (so that `t` is the cell text after trimming),
the Event's `imageUrl` is `convertDriveLink(t)` if `t` starts with `http://` or
`https://` in any letter case, `images/` followed by `t` if `t` is non-empty
and holds no `/`, and `t` unchanged otherwise (empty stays empty); the example
row yields the example Event; and every text has such a split. -/
theorem processRow_imageUrl (host : Host) :
    (∀ (row : Row) (dateStr pre t post : Str),
      resolveDate host row = Except.ok dateStr → isBlank dateStr = false →
      (cellValue row 6 = JSVal.str (pre ++ t ++ post) ∨
        (∃ r h, cellValue row 6 = JSVal.obj (JSVal.str (pre ++ t ++ post)) r h ∧
          pre ++ t ++ post ≠ []) ∨
        (cellValue row 6 = JSVal.null ∧ pre ++ t ++ post = [])) →
      (∀ c ∈ pre, isWhiteSpace c = true) → (∀ c ∈ post, isWhiteSpace c = true) →
      (∀ c, t.head? = some c → isWhiteSpace c = false) →
      (∀ c, t.getLast? = some c → isWhiteSpace c = false) →
      ∃ e, processRow host row = Except.ok (some e) ∧ e.date = dateStr ∧
        (startsWithHttpIgnoringCase t = true → e.imageUrl = convertDriveLink t) ∧
        (startsWithHttpIgnoringCase t = false → t ≠ [] → '/' ∉ t →
          e.imageUrl = "images/".toList ++ t) ∧
        (startsWithHttpIgnoringCase t = false → (t = [] ∨ '/' ∈ t) → e.imageUrl = t)) ∧
    processRow host exampleRow = Except.ok (some exampleEvent) ∧
    (∀ s : Str, ∃ pre t post, s = pre ++ t ++ post ∧ (∀ c ∈ pre, isWhiteSpace c = true) ∧
      (∀ c ∈ post, isWhiteSpace c = true) ∧
      (∀ c, t.head? = some c → isWhiteSpace c = false) ∧
      (∀ c, t.getLast? = some c → isWhiteSpace c = false)) := by
  refine ⟨?_, rfl, trim_split_exists⟩
  intro row dateStr pre t post hd hb hcell hpre hpost hhead hlast
  have h6 : getCellValue host row 6 = Except.ok (JSVal.str (pre ++ t ++ post)) := by
    rcases hcell with h | ⟨r, h, hc, hne⟩ | ⟨hc, hnil⟩
    · exact getCellValue_str host row 6 _ h
    · have ht : truthy (JSVal.str (pre ++ t ++ post)) = true := by
        cases hs : pre ++ t ++ post with
        | nil => exact absurd hs hne
        | cons c l => rfl
      unfold getCellValue
      rw [hc]
      simp only [truthy, isObject, Bool.and_self, if_true, getProp, bind, Except.bind]
      exact if_pos ht
    · unfold getCellValue
      rw [hc, hnil]
      rfl
  obtain ⟨a, e, l, st, _, _, _, _, hp⟩ :=
    (processRow_of_date host row dateStr hd).2 hb (pre ++ t ++ post) h6
  rw [trim_of_split pre t post hpre hpost hhead hlast] at hp
  refine ⟨_, hp, rfl, ?_, ?_, ?_⟩
  · intro hw
    have hw2 : isWebUrl t = true := by rw [isWebUrl_eq]; exact hw
    have hne : 0 < t.length := by
      cases t with
      | nil => simp [isWebUrl, startsWithCI] at hw2
      | cons c r => simp
    simp only [resolveImage, hne, hw2, if_true]
  · intro hw hne hs
    have hw2 : isWebUrl t = false := by rw [isWebUrl_eq]; exact hw
    have hlen : 0 < t.length := List.length_pos.2 hne
    have hs2 : includes "/".toList t = false := by
      cases h : includes "/".toList t with
      | false => rfl
      | true => exact absurd ((includes_slash_iff t).1 h) hs
    simp only [resolveImage, hlen, hw2, hs2, if_true, Bool.false_eq_true, if_false,
      Bool.not_false]
  · intro hw h
    have hw2 : isWebUrl t = false := by rw [isWebUrl_eq]; exact hw
    rcases h with h | h
    · simp [resolveImage, h]
    · have hs2 : includes "/".toList t = true := (includes_slash_iff t).2 h
      have hlen : 0 < t.length := List.length_pos.2 (List.ne_nil_of_mem h)
      simp only [resolveImage, hlen, hw2, hs2, if_true, Bool.false_eq_true, if_false,
        Bool.not_true]

/-- Witness for `processRow_imageUrl`: a file name padded with blanks becomes
`images/pic.png`, an upper-case web link to a shared file, followed by a line
feed, becomes the direct-content URL, a relative path stays as it is, and an
empty cell gives the empty text. -/
theorem processRow_imageUrl_witness :
    (∃ e, processRow refHost
        [JSVal.str "2024.03.01".toList, JSVal.null, JSVal.null, JSVal.null, JSVal.null,
          JSVal.str " pic.png ".toList] = Except.ok (some e) ∧
      e.imageUrl = "images/pic.png".toList) ∧
    (∃ e, processRow refHost
        [JSVal.str "2024.03.01".toList, JSVal.null, JSVal.null, JSVal.null, JSVal.null,
          JSVal.obj (JSVal.str ("HTTPS://drive.google.com/file/d/1AbCdEfGhIjKlMnOpQrStUvWxYz_-0/view".toList
            ++ [Char.ofNat 10])) JSVal.undefined JSVal.undefined] = Except.ok (some e) ∧
      e.imageUrl = "https://lh3.googleusercontent.com/d/1AbCdEfGhIjKlMnOpQrStUvWxYz_-0".toList) ∧
    (∃ e, processRow refHost
        [JSVal.str "2024.03.01".toList, JSVal.null, JSVal.null, JSVal.null, JSVal.null,
          JSVal.str "photos/a.png".toList] = Except.ok (some e) ∧
      e.imageUrl = "photos/a.png".toList) ∧
    (∃ e, processRow refHost
        [JSVal.str "2024.03.01".toList, JSVal.null, JSVal.null, JSVal.null, JSVal.null,
          JSVal.null] = Except.ok (some e) ∧
      e.imageUrl = []) := by
  refine ⟨?_, ?_, ?_, ?_⟩
  · obtain ⟨e, hp, _, _, hbare, _⟩ := (processRow_imageUrl refHost).1
      [JSVal.str "2024.03.01".toList, JSVal.null, JSVal.null, JSVal.null, JSVal.null,
        JSVal.str " pic.png ".toList]
      "2024.03.01".toList " ".toList "pic.png".toList " ".toList rfl (by decide)
      (Or.inl rfl) (by decide) (by decide)
      (fun c hc => by cases hc; decide) (fun c hc => by cases hc; decide)
    exact ⟨e, hp, hbare (by decide) (by decide) (by decide)⟩
  · obtain ⟨e, hp, _, hweb, _, _⟩ := (processRow_imageUrl refHost).1
      [JSVal.str "2024.03.01".toList, JSVal.null, JSVal.null, JSVal.null, JSVal.null,
        JSVal.obj (JSVal.str ("HTTPS://drive.google.com/file/d/1AbCdEfGhIjKlMnOpQrStUvWxYz_-0/view".toList
          ++ [Char.ofNat 10])) JSVal.undefined JSVal.undefined]
      "2024.03.01".toList []
      "HTTPS://drive.google.com/file/d/1AbCdEfGhIjKlMnOpQrStUvWxYz_-0/view".toList
      [Char.ofNat 10] rfl (by decide)
      (Or.inr (Or.inl ⟨_, _, rfl, by decide⟩)) (by decide) (by decide)
      (fun c hc => by cases hc; decide) (fun c hc => by cases hc; decide)
    exact ⟨e, hp, (hweb (by decide)).trans (by decide)⟩
  · obtain ⟨e, hp, _, _, _, hother⟩ := (processRow_imageUrl refHost).1
      [JSVal.str "2024.03.01".toList, JSVal.null, JSVal.null, JSVal.null, JSVal.null,
        JSVal.str "photos/a.png".toList]
      "2024.03.01".toList [] "photos/a.png".toList [] rfl (by decide)
      (Or.inl rfl) (by decide) (by decide)
      (fun c hc => by cases hc; decide) (fun c hc => by cases hc; decide)
    exact ⟨e, hp, hother (by decide) (Or.inr (by decide))⟩
  · obtain ⟨e, hp, _, _, _, hother⟩ := (processRow_imageUrl refHost).1
      [JSVal.str "2024.03.01".toList, JSVal.null, JSVal.null, JSVal.null, JSVal.null,
        JSVal.null]
      "2024.03.01".toList [] [] [] rfl (by decide)
      (Or.inr (Or.inr ⟨rfl, rfl⟩)) (by decide) (by decide)
      (fun c hc => by cases hc) (fun c hc => by cases hc)
    exact ⟨e, hp, hother (by decide) (Or.inl rfl)⟩

/-- C1, the code at the failing input: a data row whose date cell holds nothing
makes the row loop throw, so no Event of any row is produced. -/
theorem rowLoop_throws_on_absent_date (host : Host) (now : Int) :
    rowLoop host [(1, headerRow), (2, exampleRow), (3, absentDateRow)] []
      = Except.error "TypeError: Cannot read properties of null".toList ∧
    renderTimeline host now [(1, headerRow), (2, exampleRow), (3, absentDateRow)]
      = Except.error "TypeError: Cannot read properties of null".toList :=
  ⟨rfl, rfl⟩

/-- C2 (amended): for every worksheet none of whose data rows throws, the
Event list built by `fetchAndParseXlsx`, and so the rendered timeline, has
exactly as many items as there are data rows whose date text is not blank,
whether or not that text parses as a date. -/
theorem buildEvents_length (host : Host) (now : Int) (ws : Worksheet)
    (hok : ∀ r ∈ ws, r.1 ≠ 1 → ∃ o, processRow host r.2 = Except.ok o) :
    ∃ events items, buildEvents host ws = Except.ok events ∧
      renderTimeline host now ws = Except.ok items ∧
      events.length = keptCount host ws ∧ items.length = keptCount host ws := by
  obtain ⟨evs, he, hl⟩ := rowLoop_length host ws hok []
  have hlen : (sortEvents host evs).length = keptCount host ws := by
    rw [sortEvents, (sortWith_perm _ evs).length_eq, hl]
    simp
  refine ⟨sortEvents host evs, (sortEvents host evs).map (renderItem host now), ?_, ?_, hlen, ?_⟩
  · simp [buildEvents, he, bind, Except.bind, pure, Except.pure]
  · simp [renderTimeline, buildEvents, he, bind, Except.bind, pure, Except.pure]
  · simpa using hlen

/-- Witness for `buildEvents_length`: a header, the example row, a row dated
`TBA` and a row with a blank date give two Events. -/
theorem buildEvents_length_witness :
    ∃ events items,
      buildEvents refHost [(1, headerRow), (2, exampleRow), (3, tbaRow), (4, blankDateRow)]
        = Except.ok events ∧
      renderTimeline refHost 0 [(1, headerRow), (2, exampleRow), (3, tbaRow), (4, blankDateRow)]
        = Except.ok items ∧
      events.length
        = keptCount refHost [(1, headerRow), (2, exampleRow), (3, tbaRow), (4, blankDateRow)] ∧
      items.length
        = keptCount refHost [(1, headerRow), (2, exampleRow), (3, tbaRow), (4, blankDateRow)] :=
  buildEvents_length refHost 0 _ (by
    intro r hr _
    simp only [List.mem_cons, List.mem_singleton, List.not_mem_nil, or_false] at hr
    rcases hr with rfl | rfl | rfl | rfl
    · exact ⟨_, rfl⟩
    · exact ⟨_, rfl⟩
    · exact ⟨_, rfl⟩
    · exact ⟨_, rfl⟩)

/-- Counterexample to C2 as stated: a workbook whose one data row is dated
`TBA` has no row with a date that parses, and its Event list has one item. -/
theorem buildEvents_keeps_unparseable_date :
    refParseDate (normalizeDate "TBA".toList) = none ∧
    parseableCount refHost [(1, headerRow), (2, tbaRow)] = 0 ∧
    buildEvents refHost [(1, headerRow), (2, tbaRow)] = Except.ok [tbaEvent] ∧
    [tbaEvent].length = 1 := by
  refine ⟨by decide, by decide, rfl, rfl⟩

/-! ## The sort step and the seat rule -/

/-- C7: for every list of Events whose date texts all parse as dates, the list
after the sort step is a permutation of the input in which every item's parsed
date is at or after the parsed date of every item that follows it. -/
theorem sortEvents_sorted_perm (host : Host) (events : List Event)
    (h : ∀ e ∈ events, (eventTime host e).isSome = true) :
    (sortEvents host events).Perm events ∧
    (sortEvents host events).Pairwise (fun a b => ∃ ta tb,
      eventTime host a = some ta ∧ eventTime host b = some tb ∧ tb ≤ ta) :=
  ⟨sortWith_perm _ events, sortWith_sorted host events h⟩

/-- Witness for `sortEvents_sorted_perm`: three Events with dates written with
dots, with a time, and with slashes. -/
theorem sortEvents_sorted_perm_witness :
    (sortEvents refHost [eventOn "2024.03.01".toList, eventOn "2024.05.01 10:30".toList,
        eventOn "2023/12/31".toList]).Perm
      [eventOn "2024.03.01".toList, eventOn "2024.05.01 10:30".toList,
        eventOn "2023/12/31".toList] ∧
    (sortEvents refHost [eventOn "2024.03.01".toList, eventOn "2024.05.01 10:30".toList,
        eventOn "2023/12/31".toList]).Pairwise (fun a b => ∃ ta tb,
      eventTime refHost a = some ta ∧ eventTime refHost b = some tb ∧ tb ≤ ta) :=
  sortEvents_sorted_perm refHost _ (by decide)

/-- C9, the code at the failing input: for two Events whose dates both fail to
parse the comparator answers 1 in both directions. -/
theorem compareEvents_both_unparseable :
    eventTime refHost tbaEvent = none ∧ eventTime refHost tbdEvent = none ∧
    compareEvents refHost tbaEvent tbdEvent = 1 ∧
    compareEvents refHost tbdEvent tbaEvent = 1 := by
  decide

/-- C8 (amended): the seat paragraph is emitted if and only if the seat is truthy
(for a text seat: non-empty), is not the text `undefined`, and the date text
parses to a time `t` with `now` at or after the instant that is seven days
after `t` on the host's local clock, `UTC(LocalTime(t) + 7 days)`; on a host
with a constant zone offset that instant is `t` plus 604800000 ms. -/
theorem seat_emitted_iff (host : Host) (e : Event) (now : Int) :
    ((renderItem host now e).seat.isSome = true ↔
      (truthy e.seat = true ∧ e.seat ≠ JSVal.str "undefined".toList ∧
        ∃ t, eventTime host e = some t ∧
          UTC host (LocalTime host t + 7 * msPerDay) ≤ now)) ∧
    (∀ s, e.seat = JSVal.str s → (truthy e.seat = true ↔ s ≠ [])) ∧
    ((∀ x b, host.localTZA x b = host.localTZA 0 true) →
      ∀ t, UTC host (LocalTime host t + 7 * msPerDay) = t + 604800000) := by
  refine ⟨?_, ?_, ?_⟩
  · have hseat : (renderItem host now e).seat.isSome = seatShown host e now := by
      unfold renderItem
      cases seatShown host e now <;> rfl
    rw [hseat]
    unfold seatShown
    by_cases h1 : truthy e.seat = true
    · by_cases h2 : e.seat = JSVal.str "undefined".toList
      · simp [h1, h2]
      · cases ht : eventTime host e with
        | none => simp [h1, h2]
        | some t => simp [h1, h2, revealTime_eq]
    · simp [h1]
  · intro s hs
    rw [hs]
    cases s <;> simp [truthy]
  · intro hc t
    unfold UTC LocalTime msPerDay
    rw [hc _ false, hc t true]
    omega

/-- Witness for `seat_emitted_iff`: on the reference host the seat of the example
Event, dated 1 March 2024, is hidden one millisecond before 8 March 2024 and
shown from that instant on. -/
theorem seat_emitted_iff_witness :
    (renderItem refHost 1709855999999 exampleEvent).seat.isSome = false ∧
    (renderItem refHost 1709856000000 exampleEvent).seat.isSome = true ∧
    ∀ t : Int, UTC refHost (LocalTime refHost t + 7 * msPerDay) = t + 604800000 :=
  ⟨by decide, by decide, (seat_emitted_iff refHost exampleEvent 0).2.2 (fun _ _ => rfl)⟩

/-- Counterexample to C8 as stated: on a host on New York time the seat of an
Event dated 5 March 2024 is shown thirty minutes before seven days have passed
since the event date, because the clocks went forward in between. -/
theorem seat_shown_before_seven_days :
    eventTime nyHost (eventOn "2024.03.05".toList) = some 1709596800000 ∧
    (1710199800000 : Int) < 1709596800000 + 604800000 ∧
    revealTime nyHost 1709596800000 = 1709596800000 + 604800000 - 3600000 ∧
    (renderItem nyHost 1710199800000 (eventOn "2024.03.05".toList)).seat
      = some (JSVal.str "B12".toList) := by
  decide

end Script
